import Mathlib

/-!
Verification of the iteration state machine of the `code-agent` repository.

The development embeds, as executable Lean definitions, the parts of the
repository the checked claims are about:

* `src/app/database.py` — the iteration record store (`IssueIteration`,
  `DatabaseManager`): records are rows of an in-memory list, every mutating
  operation is a pointwise map over that list, mirroring the SQLAlchemy
  session semantics (each operation loads, mutates, commits and returns the
  refreshed row; callers keep detached snapshots).
* `src/app/orchestrator.py` — the SDLC orchestrator flows
  (`start_issue_cycle`, `restart_issue_cycle`, `handle_ci_completion` and
  the internal code / review / decide steps).  External services (GitHub,
  the LLM) are abstracted as environment records supplying their results;
  the JSON parser backing `json.loads` is an explicit function parameter.
* `src/app.py` — the inbound webhook endpoint `github_webhook`.

A crucial point of fidelity: the Python orchestrator passes *detached*
SQLAlchemy instances between steps.  `handle_ci_completion` loads the
record, writes the CI conclusion through a separate session, and then hands
the *pre-update snapshot* to the review and decide steps.  The embedding
reproduces exactly this: flows carry the snapshot they loaded, and
re-read the store only where the source re-reads it (`increment_iteration`).

The shape of the reviewer result is the one piece not present under the
repository sources (`ai_code_agent/reviewer_agent.py` is imported by the
orchestrator but absent from the repository); it is modelled from the
specification, see `ReviewResult`.
-/

namespace CodeAgent

/-- Status of an iteration cycle, from `IterationStatus` in
`src/app/database.py`. -/
inductive IterationStatus where
  | RUNNING
  | WAITING_CI
  | REVIEWING
  | COMPLETED
  | FAILED
  | CANCELLED
deriving DecidableEq, Repr

/-- One row of the `issue_iterations` table (`IssueIteration` in
`src/app/database.py`).  Timestamps are abstract ticks (`Nat`).  Numeric
review scores are rationals, the shallow embedding of Python numbers (the
review flow multiplies a score by `0.8`). -/
structure IssueIteration where
  id : Nat
  repo_full_name : String
  issue_number : Nat
  pr_number : Option Nat := none
  installation_id : Nat
  current_iteration : Nat := 0
  max_iterations : Nat := 5
  status : IterationStatus := .RUNNING
  issue_title : Option String := none
  issue_body : Option String := none
  branch_name : Option String := none
  last_review_score : Option ℚ := none
  last_review_recommendation : Option String := none
  last_review_feedback : Option String := none
  last_ci_status : Option String := none
  last_ci_conclusion : Option String := none
  created_at : Nat := 0
  updated_at : Nat := 0
  completed_at : Option Nat := none
  is_active : Bool := true
deriving DecidableEq, Repr

/-- The record store: the rows of the `issue_iterations` table in insertion
order, plus the next fresh primary key. -/
structure DB where
  recs : List IssueIteration := []
  next_id : Nat := 1
deriving DecidableEq, Repr

/-- The keyword arguments the orchestrator passes to
`DatabaseManager.update_iteration`.  Outer `Option` = "key present in
kwargs"; the inner value is what `setattr` stores (the orchestrator passes
`None` values through, e.g. `review_result.get("feedback")`).  The
orchestrator never passes `is_active`, `current_iteration` or
`max_iterations`, so those columns are not updatable here. -/
structure UpdateKwargs where
  branch_name : Option (Option String) := none
  pr_number : Option (Option Nat) := none
  status : Option IterationStatus := none
  last_ci_status : Option (Option String) := none
  last_ci_conclusion : Option (Option String) := none
  last_review_score : Option (Option ℚ) := none
  last_review_recommendation : Option (Option String) := none
  last_review_feedback : Option (Option String) := none

/-- The `setattr` loop of `DatabaseManager.update_iteration` plus the
`updated_at` touch. -/
def applyKwargs (u : UpdateKwargs) (now : Nat) (r : IssueIteration) : IssueIteration :=
  { r with
    branch_name := u.branch_name.getD r.branch_name
    pr_number := u.pr_number.getD r.pr_number
    status := u.status.getD r.status
    last_ci_status := u.last_ci_status.getD r.last_ci_status
    last_ci_conclusion := u.last_ci_conclusion.getD r.last_ci_conclusion
    last_review_score := u.last_review_score.getD r.last_review_score
    last_review_recommendation := u.last_review_recommendation.getD r.last_review_recommendation
    last_review_feedback := u.last_review_feedback.getD r.last_review_feedback
    updated_at := now }

/-- Row lookup by primary key (the `filter(IssueIteration.id == iteration_id)`
queries all mutating operations start with). -/
def findById (db : DB) (i : Nat) : Option IssueIteration :=
  db.recs.find? (fun r => decide (r.id = i))

/-- Shared shape of the mutating operations: load the row by id, apply the
row-level change to that row, persist, and return the refreshed row.  A
missing id is an absent result, and the row map is then pointwise the
identity, so the store is unchanged. -/
def dbMutate (i : Nat) (g : IssueIteration → IssueIteration) (db : DB) :
    Option IssueIteration × DB :=
  ((findById db i).map g,
   { db with recs := db.recs.map (fun s => if s.id = i then g s else s) })

/-- `DatabaseManager.get_active_iteration`. -/
def getActiveIteration (db : DB) (repo : String) (issue : Nat) : Option IssueIteration :=
  db.recs.find? (fun r => decide (r.repo_full_name = repo ∧ r.issue_number = issue ∧ r.is_active = true))

/-- `DatabaseManager.get_iteration_by_pr`. -/
def getIterationByPr (db : DB) (repo : String) (pr : Nat) : Option IssueIteration :=
  db.recs.find? (fun r => decide (r.repo_full_name = repo ∧ r.pr_number = some pr ∧ r.is_active = true))

/-- The deactivation loop at the head of `DatabaseManager.create_iteration`:
an active row of the issue loses its `is_active` flag, every other row is
untouched. -/
def deactRow (repo : String) (issue : Nat) (r : IssueIteration) : IssueIteration :=
  if r.repo_full_name = repo ∧ r.issue_number = issue ∧ r.is_active = true then
    { r with is_active := false }
  else r

/-- The fresh row `DatabaseManager.create_iteration` inserts
(`current_iteration=0`, `status=RUNNING`, `is_active` defaulting to true).
`cfg` is `settings.max_iterations`, the fallback of the Python
`max_iterations or settings.max_iterations` (an explicit `0` is falsy). -/
def freshRec (db : DB) (repo : String) (issue : Nat) (inst : Nat)
    (title body : Option String) (maxIter : Nat) (cfg : Nat) (now : Nat) :
    IssueIteration :=
  { id := db.next_id
    repo_full_name := repo
    issue_number := issue
    installation_id := inst
    issue_title := title
    issue_body := body
    max_iterations := if maxIter = 0 then cfg else maxIter
    current_iteration := 0
    status := .RUNNING
    created_at := now
    updated_at := now }

/-- `DatabaseManager.create_iteration`: deactivate every active record of the
issue, then insert the fresh record and return it. -/
def createIteration (db : DB) (repo : String) (issue : Nat) (inst : Nat)
    (title body : Option String) (maxIter : Nat) (cfg : Nat) (now : Nat) :
    IssueIteration × DB :=
  (freshRec db repo issue inst title body maxIter cfg now,
   { recs := db.recs.map (deactRow repo issue) ++
       [freshRec db repo issue inst title body maxIter cfg now]
     next_id := db.next_id + 1 })

/-- `DatabaseManager.update_iteration`. -/
def updateIteration (db : DB) (i : Nat) (u : UpdateKwargs) (now : Nat) :
    Option IssueIteration × DB :=
  dbMutate i (applyKwargs u now) db

/-- The row-level change of `DatabaseManager.increment_iteration`: bump the
counter, touch `updated_at`, and force `FAILED` + `completed_at` when the
new counter meets or exceeds the budget.  `is_active` is untouched. -/
def incRow (now : Nat) (r : IssueIteration) : IssueIteration :=
  let r1 := { r with current_iteration := r.current_iteration + 1, updated_at := now }
  if r1.max_iterations ≤ r1.current_iteration then
    { r1 with status := .FAILED, completed_at := some now }
  else r1

/-- `DatabaseManager.increment_iteration`. -/
def incrementIteration (db : DB) (i : Nat) (now : Nat) : Option IssueIteration × DB :=
  dbMutate i (incRow now) db

/-- The row-level change of `DatabaseManager.complete_iteration`: set the
terminal status, stamp `completed_at`, and deactivate. -/
def completeRow (st : IterationStatus) (now : Nat) (r : IssueIteration) : IssueIteration :=
  { r with status := st, completed_at := some now, updated_at := now, is_active := false }

/-- `DatabaseManager.complete_iteration`. -/
def completeIteration (db : DB) (i : Nat) (st : IterationStatus) (now : Nat) :
    Option IssueIteration × DB :=
  dbMutate i (completeRow st now) db

end CodeAgent

namespace CodeAgent

/-! ## Review engine model -/

/-- The `overall_assessment` part of the reviewer result.  Modelled from the
spec: the Review Engine's overall assessment carries a numeric score
(0–100), a status label, a recommendation in
approve / approve_with_suggestions / request_changes, and a free-text
summary (`ai_code_agent/reviewer_agent.py` is imported by the orchestrator
but absent from the repository sources). -/
structure OverallAssessment where
  score : ℚ
  status_label : String
  recommendation : String
  summary : String
deriving DecidableEq, Repr

/-- Modelled from the spec: the structured result of
`ReviewerAgent._perform_comprehensive_review` (the module is missing from
the repository).  Per §4.5 it holds per-dimension summaries for code
quality, requirements compliance and security, plus the overall
assessment — and nothing else; in particular the dict has no *top-level*
`score`, `recommendation` or `feedback` keys. -/
structure ReviewResult where
  overall_assessment : OverallAssessment
  code_quality_summary : String
  requirements_compliance_summary : String
  security_summary : String
deriving DecidableEq, Repr

/-- Python `review_result.get("score")` in `_run_review_iteration`: a
top-level lookup on the (spec-modelled) result dict, whose keys are
`overall_assessment` and the per-dimension entries — so the lookup yields
`None`. -/
def ReviewResult.topScore (_ : ReviewResult) : Option ℚ := none

/-- Python `review_result.get("recommendation")` in `_run_review_iteration`:
absent top-level key, yields `None` (the recommendation lives under
`overall_assessment`). -/
def ReviewResult.topRecommendation (_ : ReviewResult) : Option String := none

/-- Python `review_result.get("feedback")` in `_run_review_iteration`:
absent top-level key, yields `None`. -/
def ReviewResult.topFeedback (_ : ReviewResult) : Option String := none

/-- Rendering of a Python value inside an f-string: `None` prints as
`"None"`. -/
def pyStr (o : Option String) : String :=
  match o with
  | some s => s
  | none => "None"

/-- Python `x or default` on an optional string: `None` and the empty string
are falsy. -/
def pyOr (o : Option String) (d : String) : String :=
  match o with
  | some s => if s = "" then d else s
  | none => d

/-- Python truthiness of an optional string. -/
def truthy (o : Option String) : Bool :=
  match o with
  | some s => decide (s ≠ "")
  | none => false

/-- The CI-awareness post-processing of `_execute_reviewer_agent`
(`src/app/orchestrator.py` lines 686–692): when the context's CI conclusion
differs from `"success"` and the raw overall score exceeds 50, multiply the
score by `0.8` and append the CI-failure note to the summary; the
recommendation field is never touched. -/
def applyCiPenalty (cc : Option String) (rr : ReviewResult) : ReviewResult :=
  if cc ≠ some "success" then
    if 50 < rr.overall_assessment.score then
      { rr with overall_assessment :=
        { rr.overall_assessment with
            score := rr.overall_assessment.score * (0.8 : ℚ)
            summary := rr.overall_assessment.summary ++ " CI failed with status: " ++ pyStr cc } }
    else rr
  else rr

/-- `SDLCOrchestrator._execute_reviewer_agent`: run the reviewer (its raw
result, or `none` when the agent or its GitHub plumbing raises, is supplied
by the environment), then apply the CI penalty keyed to the *context's*
`ci_conclusion`. -/
def executeReviewerAgent (cc : Option String) (raw : Option ReviewResult) : Option ReviewResult :=
  raw.map (applyCiPenalty cc)

/-! ## Change-planning model -/

/-- The structured plan `_analyze_issue_requirements` asks the assistant
for (the JSON shape prescribed by its system prompt). -/
structure Plan where
  summary : String := ""
  files_to_modify : List String := []
  files_to_create : List String := []
  requirements : List String := []
  technical_approach : String := ""
  dependencies : List String := []
deriving DecidableEq, Repr

/-- The per-call context dict built by `_run_code_iteration`
(`src/app/orchestrator.py` lines 135–144) from the refreshed record. -/
structure AgentContext where
  repo_full_name : String
  issue_number : Nat
  issue_title : Option String
  issue_body : Option String
  iteration : Nat
  branch_name : Option String
  pr_number : Option Nat
  last_review_feedback : Option String
deriving DecidableEq, Repr

/-- Context construction from the refreshed iteration row. -/
def mkContext (it : IssueIteration) : AgentContext :=
  { repo_full_name := it.repo_full_name
    issue_number := it.issue_number
    issue_title := it.issue_title
    issue_body := it.issue_body
    iteration := it.current_iteration
    branch_name := it.branch_name
    pr_number := it.pr_number
    last_review_feedback := it.last_review_feedback }

/-- The fixed system prompt of `_analyze_issue_requirements`. -/
def analysisSystemPrompt : String :=
  "You are an expert software developer analyzing GitHub issues.\n" ++
  "            Analyze the issue and provide a structured response for implementation.\n" ++
  "            \n" ++
  "            Consider:\n" ++
  "            1. What needs to be implemented\n" ++
  "            2. Files to create or modify\n" ++
  "            3. Technical approach\n" ++
  "            4. Dependencies needed\n" ++
  "            \n" ++
  "            If this is a follow-up iteration, also consider the previous feedback.\n" ++
  "            \n" ++
  "            Respond in JSON format:\n" ++
  "            \x7b\n" ++
  "                \"summary\": \"Brief description\",\n" ++
  "                \"files_to_modify\": [\"list\", \"of\", \"files\"],\n" ++
  "                \"files_to_create\": [\"list\", \"of\", \"new\", \"files\"],\n" ++
  "                \"requirements\": [\"list\", \"of\", \"requirements\"],\n" ++
  "                \"technical_approach\": \"Implementation approach\",\n" ++
  "                \"dependencies\": [\"list\", \"of\", \"dependencies\"]\n" ++
  "            \x7d"

/-- The user prompt of `_analyze_issue_requirements`
(`src/app/orchestrator.py` lines 278–286): issue header, description (with
the `or 'No description provided'` fallback), iteration number, and — only
when the context carries truthy feedback — the previous review feedback
appended verbatim. -/
def analysisUserPrompt (ctx : AgentContext) : String :=
  let base := "Issue #" ++ toString ctx.issue_number ++ ": " ++ pyStr ctx.issue_title ++
    "\n\nDescription:\n" ++ pyOr ctx.issue_body "No description provided" ++
    "\n\nIteration: " ++ toString ctx.iteration
  if truthy ctx.last_review_feedback then
    base ++ "\n\nPrevious review feedback:\n" ++ pyStr ctx.last_review_feedback
  else base

/-- The role-tagged conversation `_analyze_issue_requirements` sends to the
assistant gateway. -/
def analysisMessages (ctx : AgentContext) : List (String × String) :=
  [("system", analysisSystemPrompt), ("user", analysisUserPrompt ctx)]

/-- The span matched by `re.search(r'\x7b.*\x7d', response, re.DOTALL)`:
from the first `\x7b` to the last `\x7d`, provided the latter comes after
the former (leftmost-then-greedy matching over the whole text). -/
def braceSpan (cs : List Char) : Option (List Char) :=
  match cs.findIdx? (fun c => decide (c = '{')), cs.reverse.findIdx? (fun c => decide (c = '}')) with
  | some i, some k =>
      let j := cs.length - 1 - k
      if i < j then some ((cs.drop i).take (j - i + 1)) else none
  | _, _ => none

/-- The JSON extraction of `_analyze_issue_requirements`: apply the greedy
brace regex, then `json.loads` — which the embedding abstracts as the
function parameter `parse` (a parse exception is `none`, caught by the
surrounding `except`). -/
def extractJsonObject (parse : String → Option Plan) (s : String) : Option Plan :=
  match braceSpan s.toList with
  | none => none
  | some sub => parse (String.mk sub)

/-- `SDLCOrchestrator._analyze_issue_requirements`: build the prompts, query
the assistant, extract the embedded JSON object; any failure is `none`. -/
def analyzeIssueRequirements (parse : String → Option Plan)
    (llm : List (String × String) → String) (ctx : AgentContext) : Option Plan :=
  extractJsonObject parse (llm (analysisMessages ctx))

end CodeAgent

namespace CodeAgent

/-! ## Orchestrator flows

Each flow is a function of the store plus an environment record carrying
the results of the external services it consults.  Flows also emit a trace
of observable events: which record a code-generation step was started for,
the planning prompt sent to the assistant, PR creation/update, the review
result produced, and each `_complete_iteration` call with its message. -/

/-- Observable effects of one orchestration flow. -/
inductive Event where
  | codeIterStarted (recId : Nat)
  | planRequested (userPrompt : String)
  | prCreated (pr : Nat)
  | prUpdated (pr : Nat)
  | reviewProduced (result : ReviewResult)
  | completedCall (recId : Nat) (status : IterationStatus) (message : String)
deriving DecidableEq, Repr

/-- Environment of one code-generation step: results of the GitHub and LLM
calls `_execute_code_agent` makes. -/
structure CodeEnv where
  default_branch : String := "main"
  base_sha : String := ""
  create_branch : Except String Unit := .ok ()
  llm : List (String × String) → String
  apply_ok : Bool := true
  update_pr_ok : Bool := true
  create_pr : Option Nat := none

/-- Whether a list of characters occurs inside another. -/
def isInfixB (pat : List Char) : List Char → Bool
  | [] => pat.isEmpty
  | c :: rest => pat.isPrefixOf (c :: rest) || isInfixB pat rest

/-- Substring test on strings (Python `needle in haystack`). -/
def hasSubstr (haystack needle : String) : Bool :=
  isInfixB needle.toList haystack.toList

/-- The branch-creation handling of `_execute_code_agent`: a creation error
whose lowered message mentions `422` / `already exists` /
`reference already exists` is recoverable (the code falls through to a
best-effort branch update and continues); any other error aborts the step. -/
def branchStepOk (env : CodeEnv) : Bool :=
  match env.create_branch with
  | .ok _ => true
  | .error e =>
      let low := e.toLower
      hasSubstr low "422" || hasSubstr low "already exists" ||
        hasSubstr low "reference already exists"

/-- The result dict of a successful `_execute_code_agent` run. -/
structure AgentResult where
  branch_name : String
  pr_number : Nat
deriving DecidableEq, Repr

/-- `SDLCOrchestrator._execute_code_agent`: resolve the branch name
(`agent/issue-<n>` when the context has none), create or fall back to
updating the branch, analyze the issue into a plan, apply the changes, and
create the PR (or update the existing one).  Any fatal failure yields
`none`; the event trace records the planning prompt and PR effects. -/
def executeCodeAgent (parse : String → Option Plan) (env : CodeEnv)
    (ctx : AgentContext) : Option AgentResult × List Event :=
  let branch := pyOr ctx.branch_name ("agent/issue-" ++ toString ctx.issue_number)
  if ¬ branchStepOk env then (none, [])
  else
    let evs0 := [Event.planRequested (analysisUserPrompt ctx)]
    match analyzeIssueRequirements parse env.llm ctx with
    | none => (none, evs0)
    | some _plan =>
        if ¬ env.apply_ok then (none, evs0)
        else
          match ctx.pr_number with
          | some n =>
              if env.update_pr_ok then (some ⟨branch, n⟩, evs0 ++ [.prUpdated n])
              else (none, evs0)
          | none =>
              match env.create_pr with
              | some n => (some ⟨branch, n⟩, evs0 ++ [.prCreated n])
              | none => (none, evs0)

/-- `SDLCOrchestrator._run_code_iteration`: increment the counter (a missing
row aborts without completing), stop with `FAILED` when the refreshed
counter meets the budget, otherwise run the code agent on the context built
from the refreshed row; on agent failure complete as `FAILED`
("Code generation failed"), on success store branch/PR and move to
`WAITING_CI`. -/
def runCodeIteration (parse : String → Option Plan) (env : CodeEnv)
    (snapshot : IssueIteration) (now : Nat) (db : DB) : Bool × DB × List Event :=
  match (incrementIteration db snapshot.id now).1 with
  | none =>
      (false, (incrementIteration db snapshot.id now).2, [.codeIterStarted snapshot.id])
  | some it =>
      if it.max_iterations ≤ it.current_iteration then
        (false,
         (completeIteration (incrementIteration db snapshot.id now).2 it.id .FAILED now).2,
         [.codeIterStarted snapshot.id,
          .completedCall it.id .FAILED "Maximum iterations reached"])
      else
        match executeCodeAgent parse env (mkContext it) with
        | (none, aevs) =>
            (false,
             (completeIteration (incrementIteration db snapshot.id now).2 it.id .FAILED now).2,
             .codeIterStarted snapshot.id ::
               aevs ++ [.completedCall it.id .FAILED "Code generation failed"])
        | (some res, aevs) =>
            (true,
             (updateIteration (incrementIteration db snapshot.id now).2 it.id
               { branch_name := some (some res.branch_name)
                 pr_number := some (some res.pr_number)
                 status := some .WAITING_CI } now).2,
             .codeIterStarted snapshot.id :: aevs)

/-- `SDLCOrchestrator._decide_next_action`, acting on the *snapshot* the
review flow was handed (not the refreshed row): complete as `COMPLETED`
when the recommendation is approve/approve_with_suggestions and the
snapshot's `last_ci_conclusion` equals success; loop back to `RUNNING` and
schedule another code iteration when changes are requested under the
budget; otherwise complete as `FAILED`. -/
def decideNextAction (parse : String → Option Plan) (cenv : CodeEnv)
    (snapshot : IssueIteration) (rr : ReviewResult) (now : Nat) (db : DB) :
    DB × List Event :=
  if (rr.overall_assessment.recommendation = "approve" ∨
      rr.overall_assessment.recommendation = "approve_with_suggestions") ∧
      snapshot.last_ci_conclusion = some "success" then
    ((completeIteration db snapshot.id .COMPLETED now).2,
     [.completedCall snapshot.id .COMPLETED "Code approved and CI passed"])
  else if rr.overall_assessment.recommendation = "request_changes" ∧
      snapshot.current_iteration < snapshot.max_iterations then
    (runCodeIteration parse cenv snapshot now
      (updateIteration db snapshot.id { status := some .RUNNING } now).2).2
  else
    ((completeIteration db snapshot.id .FAILED now).2,
     [.completedCall snapshot.id .FAILED
       ("Max iterations reached or unresolvable issues. Last recommendation: " ++
         rr.overall_assessment.recommendation)])

/-- Environment of one review step: whether fetching the PR and its files
succeeded (with the raised message otherwise), and the reviewer agent's raw
result (`none` when the agent or its plumbing raises). -/
structure ReviewEnv where
  fetch_ok : Bool := true
  fetch_err : String := ""
  raw_review : Option ReviewResult := none

/-- `SDLCOrchestrator._run_review_iteration`, acting on the snapshot
`handle_ci_completion` loaded *before* recording the CI result: fetch the
PR (a raised fetch completes the iteration as `FAILED` with the message),
run the reviewer with the CI penalty keyed to the snapshot's
`last_ci_conclusion`, persist the top-level `score`/`recommendation`/
`feedback` lookups of the result dict, then decide the next action — still
on the same snapshot. -/
def runReviewIteration (parse : String → Option Plan) (cenv : CodeEnv)
    (renv : ReviewEnv) (snapshot : IssueIteration) (now : Nat) (db : DB) :
    Bool × DB × List Event :=
  if ¬ renv.fetch_ok then
    (false, (completeIteration db snapshot.id .FAILED now).2,
     [.completedCall snapshot.id .FAILED renv.fetch_err])
  else
    match executeReviewerAgent snapshot.last_ci_conclusion renv.raw_review with
    | none =>
        (false, (completeIteration db snapshot.id .FAILED now).2,
         [.completedCall snapshot.id .FAILED "Review failed"])
    | some rr =>
        (true,
         (decideNextAction parse cenv snapshot rr now
           (updateIteration db snapshot.id
             { last_review_score := some rr.topScore
               last_review_recommendation := some rr.topRecommendation
               last_review_feedback := some rr.topFeedback } now).2).1,
         .reviewProduced rr ::
           (decideNextAction parse cenv snapshot rr now
             (updateIteration db snapshot.id
               { last_review_score := some rr.topScore
                 last_review_recommendation := some rr.topRecommendation
                 last_review_feedback := some rr.topFeedback } now).2).2)

/-- `SDLCOrchestrator.handle_ci_completion`: look the record up by PR (an
absent record returns `False`); a `REVIEWING` record is a no-op returning
`True`; a record not in `WAITING_CI` is a no-op returning `True`; otherwise
record the CI result, move to `REVIEWING`, and run the review — on the
snapshot loaded before that update. -/
def handleCiCompletion (parse : String → Option Plan) (cenv : CodeEnv)
    (renv : ReviewEnv) (repo : String) (pr : Nat) (ciStatus ciConclusion : String)
    (now : Nat) (db : DB) : Bool × DB × List Event :=
  match getIterationByPr db repo pr with
  | none => (false, db, [])
  | some it =>
      if it.status = .REVIEWING then (true, db, [])
      else if it.status ≠ .WAITING_CI then (true, db, [])
      else
        (true,
         (runReviewIteration parse cenv renv it now
           (updateIteration db it.id
             { last_ci_status := some (some ciStatus)
               last_ci_conclusion := some (some ciConclusion)
               status := some .REVIEWING } now).2).2)

/-- `SDLCOrchestrator.start_issue_cycle`: an existing active record is
returned unchanged; otherwise fetch the issue (`none` models a raised
fetch, caught and returning `None` with no record created), create the
record with the configured budget, and run the first code iteration. -/
def startIssueCycle (parse : String → Option Plan) (cenv : CodeEnv) (cfg : Nat)
    (repo : String) (issue : Nat) (inst : Nat)
    (issueData : Option (Option String × Option String)) (now : Nat) (db : DB) :
    Option Nat × DB × List Event :=
  match getActiveIteration db repo issue with
  | some it => (some it.id, db, [])
  | none =>
      match issueData with
      | none => (none, db, [])
      | some (title, body) =>
          (some (createIteration db repo issue inst title body cfg cfg now).1.id,
           (runCodeIteration parse cenv
             (createIteration db repo issue inst title body cfg cfg now).1 now
             (createIteration db repo issue inst title body cfg cfg now).2).2)

/-- `SDLCOrchestrator.restart_issue_cycle`: force-complete any active record
as `FAILED`, then proceed as a fresh start (issue fetch, create, first code
iteration). -/
def restartIssueCycle (parse : String → Option Plan) (cenv : CodeEnv) (cfg : Nat)
    (repo : String) (issue : Nat) (inst : Nat)
    (issueData : Option (Option String × Option String)) (now : Nat) (db : DB) :
    Option Nat × DB × List Event :=
  let db0 :=
    match getActiveIteration db repo issue with
    | some it => (completeIteration db it.id .FAILED now).2
    | none => db
  match issueData with
  | none => (none, db0, [])
  | some (title, body) =>
      (some (createIteration db0 repo issue inst title body cfg cfg now).1.id,
       (runCodeIteration parse cenv
         (createIteration db0 repo issue inst title body cfg cfg now).1 now
         (createIteration db0 repo issue inst title body cfg cfg now).2).2)

/-! ## Inbound webhook endpoint (`src/app.py`) -/

/-- The orchestrator entry points an inbound event could invoke. -/
inductive OrchCall where
  | startCycle (repo : String) (issue : Nat) (inst : Nat)
  | ciCompletion (repo : String) (pr : Nat) (ciStatus ciConclusion : String)
deriving DecidableEq, Repr

/-- `verify_signature` from `src/app.py`: the header must split on `=` into
exactly a scheme and a digest, the scheme must be `sha256`, and the digest
must equal the HMAC of the body (the HMAC computation itself is abstracted:
`macHex` is the hex digest `hmac.new(...)` produces for the payload). -/
def verifySignature (macHex : String) (signatureHeader : Option String) : Bool :=
  match signatureHeader with
  | none => false
  | some h =>
      match (h.toList.splitOn '=').map String.mk with
      | [shaName, signature] => shaName = "sha256" ∧ macHex = signature
      | _ => false

/-- `github_webhook` from `src/app.py`: reject an invalid signature with
HTTP 401; otherwise parse the payload, log it, and respond
`{"status": "ok"}`.  The returned list records every orchestrator call the
handler performs before responding — the body makes none. -/
def githubWebhook (macHex : String) (signatureHeader : Option String)
    (_event : Option String) (_payload : String) : Except Nat (String × List OrchCall) :=
  if verifySignature macHex signatureHeader then .ok ("ok", [])
  else .error 401

/-! ## The orchestrator-driven transition system -/

/-- One externally triggered orchestration step: a start, a restart, or a
CI-completion delivery, each with arbitrary external-service behaviour.
`parse` is the JSON parser, `cfg` the configured `settings.max_iterations`. -/
inductive Step (parse : String → Option Plan) (cfg : Nat) :
    DB → DB → List Event → Prop where
  | start (cenv : CodeEnv) (repo : String) (issue inst : Nat)
      (issueData : Option (Option String × Option String)) (now : Nat) (db : DB) :
      Step parse cfg db
        (startIssueCycle parse cenv cfg repo issue inst issueData now db).2.1
        (startIssueCycle parse cenv cfg repo issue inst issueData now db).2.2
  | restart (cenv : CodeEnv) (repo : String) (issue inst : Nat)
      (issueData : Option (Option String × Option String)) (now : Nat) (db : DB) :
      Step parse cfg db
        (restartIssueCycle parse cenv cfg repo issue inst issueData now db).2.1
        (restartIssueCycle parse cenv cfg repo issue inst issueData now db).2.2
  | ciEvent (cenv : CodeEnv) (renv : ReviewEnv) (repo : String) (pr : Nat)
      (ciStatus ciConclusion : String) (now : Nat) (db : DB) :
      Step parse cfg db
        (handleCiCompletion parse cenv renv repo pr ciStatus ciConclusion now db).2.1
        (handleCiCompletion parse cenv renv repo pr ciStatus ciConclusion now db).2.2

/-- Store states reachable from the empty store through orchestrator
steps. -/
inductive Reachable (parse : String → Option Plan) (cfg : Nat) : DB → Prop where
  | init : Reachable parse cfg {}
  | next {db db' : DB} {evs : List Event} :
      Reachable parse cfg db → Step parse cfg db db' evs → Reachable parse cfg db'

end CodeAgent

namespace CodeAgent

/-! ## Store invariants and operation-level lemmas -/

/-- The number of active records for one `(repository, issue)` key. -/
def ActiveKeyCount (db : DB) (repo : String) (issue : Nat) : Nat :=
  db.recs.countP
    (fun r => decide (r.repo_full_name = repo ∧ r.issue_number = issue ∧ r.is_active = true))

/-- Structural store invariant: primary keys are fresh-bounded and distinct,
and each `(repository, issue)` key has at most one active record. -/
structure StoreInv (db : DB) : Prop where
  ids_lt : ∀ r ∈ db.recs, r.id < db.next_id
  ids_distinct : db.recs.Pairwise (fun a b => a.id ≠ b.id)
  unique_active : ∀ repo issue, ActiveKeyCount db repo issue ≤ 1

/-- The iteration-budget invariant: no record's counter exceeds its
budget. -/
def BoundInv (db : DB) : Prop :=
  ∀ r ∈ db.recs, r.current_iteration ≤ r.max_iterations

/-- Evolution order between store states: every existing row survives (by
id) with a counter at least as large and the same budget. -/
def MonoLE (db db' : DB) : Prop :=
  ∀ j r, findById db j = some r →
    ∃ r', findById db' j = some r' ∧
      r.current_iteration ≤ r'.current_iteration ∧
      r'.max_iterations = r.max_iterations

theorem MonoLE.rfl (db : DB) : MonoLE db db :=
  fun _ r h => ⟨r, h, le_refl _, Eq.refl _⟩

theorem MonoLE.trans {db1 db2 db3 : DB} (h12 : MonoLE db1 db2) (h23 : MonoLE db2 db3) :
    MonoLE db1 db3 := by
  intro j r h1
  obtain ⟨r2, h2, hc2, hm2⟩ := h12 j r h1
  obtain ⟨r3, h3, hc3, hm3⟩ := h23 j r2 h2
  exact ⟨r3, h3, le_trans hc2 hc3, hm3.trans hm2⟩

/-- Row transformations compatible with every invariant except (possibly)
the budget: they preserve the id, the `(repository, issue)` key and the
budget, never activate a row, and never decrease the counter. -/
structure RowTame (g : IssueIteration → IssueIteration) : Prop where
  id_eq : ∀ r, (g r).id = r.id
  repo_eq : ∀ r, (g r).repo_full_name = r.repo_full_name
  issue_eq : ∀ r, (g r).issue_number = r.issue_number
  active_mono : ∀ r, (g r).is_active = true → r.is_active = true
  cur_le : ∀ r, r.current_iteration ≤ (g r).current_iteration
  max_eq : ∀ r, (g r).max_iterations = r.max_iterations

theorem rowTame_applyKwargs (u : UpdateKwargs) (now : Nat) : RowTame (applyKwargs u now) := by
  constructor <;> intro r <;> simp [applyKwargs]

theorem rowTame_incRow (now : Nat) : RowTame (incRow now) := by
  constructor <;> intro r <;> simp only [incRow] <;>
    split <;> simp

theorem rowTame_completeRow (st : IterationStatus) (now : Nat) :
    RowTame (completeRow st now) := by
  constructor <;> intro r <;> simp [completeRow]

/-- The per-row function `dbMutate i g` actually applies. -/
def rowAt (i : Nat) (g : IssueIteration → IssueIteration) (s : IssueIteration) :
    IssueIteration :=
  if s.id = i then g s else s

theorem rowTame_rowAt {g : IssueIteration → IssueIteration} (hg : RowTame g) (i : Nat) :
    RowTame (rowAt i g) := by
  constructor <;> intro r <;> unfold rowAt <;> split
  · exact hg.id_eq r
  · rfl
  · exact hg.repo_eq r
  · rfl
  · exact hg.issue_eq r
  · rfl
  · exact hg.active_mono r
  · exact fun h => h
  · exact hg.cur_le r
  · exact le_refl _
  · exact hg.max_eq r
  · rfl

theorem dbMutate_recs (i : Nat) (g : IssueIteration → IssueIteration) (db : DB) :
    (dbMutate i g db).2.recs = db.recs.map (rowAt i g) := rfl

theorem dbMutate_next_id (i : Nat) (g : IssueIteration → IssueIteration) (db : DB) :
    (dbMutate i g db).2.next_id = db.next_id := rfl

theorem dbMutate_fst (i : Nat) (g : IssueIteration → IssueIteration) (db : DB) :
    (dbMutate i g db).1 = (findById db i).map g := rfl

/-- Lookup by id commutes with an id-preserving pointwise mutation. -/
theorem findById_dbMutate {g : IssueIteration → IssueIteration}
    (hg : ∀ r, (g r).id = r.id) (i : Nat) (db : DB) (j : Nat) :
    findById (dbMutate i g db).2 j = (findById db j).map (rowAt i g) := by
  unfold findById
  rw [dbMutate_recs, List.find?_map]
  have hp : ((fun r => decide (r.id = j)) ∘ rowAt i g) = (fun r => decide (r.id = j)) := by
    funext s
    simp only [Function.comp]
    unfold rowAt
    split
    · rw [hg]
    · rfl
  rw [hp]

/-- Lookup by `(repository, issue, active)` key commutes with a pointwise
mutation that preserves the key and the activity flag. -/
theorem getActive_dbMutate {g : IssueIteration → IssueIteration}
    (hrepo : ∀ r, (g r).repo_full_name = r.repo_full_name)
    (hissue : ∀ r, (g r).issue_number = r.issue_number)
    (hact : ∀ r, (g r).is_active = r.is_active)
    (i : Nat) (db : DB) (repo : String) (issue : Nat) :
    getActiveIteration (dbMutate i g db).2 repo issue =
      (getActiveIteration db repo issue).map (rowAt i g) := by
  unfold getActiveIteration
  rw [dbMutate_recs, List.find?_map]
  have hp : ((fun r => decide (r.repo_full_name = repo ∧ r.issue_number = issue ∧ r.is_active = true)) ∘ rowAt i g) =
      (fun r => decide (r.repo_full_name = repo ∧ r.issue_number = issue ∧ r.is_active = true)) := by
    funext s
    simp only [Function.comp]
    unfold rowAt
    split
    · rw [hrepo, hissue, hact]
    · rfl
  rw [hp]

theorem storeInv_mutate {g : IssueIteration → IssueIteration} (hg : RowTame g)
    {db : DB} (h : StoreInv db) (i : Nat) : StoreInv (dbMutate i g db).2 := by
  have hf := rowTame_rowAt hg i
  constructor
  · intro r hr
    rw [dbMutate_recs] at hr
    obtain ⟨s, hs, rfl⟩ := List.mem_map.mp hr
    rw [dbMutate_next_id, hf.id_eq]
    exact h.ids_lt s hs
  · rw [dbMutate_recs, List.pairwise_map]
    refine h.ids_distinct.imp ?_
    intro a b hab
    rw [hf.id_eq, hf.id_eq]
    exact hab
  · intro repo issue
    unfold ActiveKeyCount
    rw [dbMutate_recs, List.countP_map]
    refine le_trans (List.countP_mono_left ?_) (h.unique_active repo issue)
    intro s _ hps
    simp only [Function.comp, decide_eq_true_eq] at hps ⊢
    obtain ⟨h1, h2, h3⟩ := hps
    exact ⟨(hf.repo_eq s) ▸ h1, (hf.issue_eq s) ▸ h2, hf.active_mono s h3⟩

theorem monoLE_mutate {g : IssueIteration → IssueIteration} (hg : RowTame g)
    (i : Nat) (db : DB) : MonoLE db (dbMutate i g db).2 := by
  have hf := rowTame_rowAt hg i
  intro j r hj
  refine ⟨rowAt i g r, ?_, hf.cur_le r, hf.max_eq r⟩
  rw [findById_dbMutate hg.id_eq, hj]
  rfl

theorem boundInv_mutate {g : IssueIteration → IssueIteration}
    {db : DB} (h : BoundInv db)
    (hok : ∀ r ∈ db.recs, r.id = i →
      (g r).current_iteration ≤ (g r).max_iterations) :
    BoundInv (dbMutate i g db).2 := by
  intro r hr
  rw [dbMutate_recs] at hr
  obtain ⟨s, hs, rfl⟩ := List.mem_map.mp hr
  unfold rowAt
  split
  · exact hok s hs (by assumption)
  · exact h s hs

end CodeAgent

namespace CodeAgent

/-! ## Create-operation lemmas -/

theorem rowTame_deactRow (repo : String) (issue : Nat) : RowTame (deactRow repo issue) := by
  refine ⟨fun r => ?_, fun r => ?_, fun r => ?_, fun r => ?_, fun r => ?_, fun r => ?_⟩ <;>
    unfold deactRow <;> split <;> simp_all

theorem deactRow_cur (repo : String) (issue : Nat) (r : IssueIteration) :
    (deactRow repo issue r).current_iteration = r.current_iteration := by
  unfold deactRow; split <;> rfl

theorem deactRow_max (repo : String) (issue : Nat) (r : IssueIteration) :
    (deactRow repo issue r).max_iterations = r.max_iterations := by
  unfold deactRow; split <;> rfl

theorem createIteration_next_id (db : DB) (repo : String) (issue inst : Nat)
    (title body : Option String) (maxIter cfg now : Nat) :
    (createIteration db repo issue inst title body maxIter cfg now).2.next_id =
      db.next_id + 1 := rfl

theorem createIteration_recs (db : DB) (repo : String) (issue inst : Nat)
    (title body : Option String) (maxIter cfg now : Nat) :
    (createIteration db repo issue inst title body maxIter cfg now).2.recs =
      db.recs.map (deactRow repo issue) ++
        [freshRec db repo issue inst title body maxIter cfg now] := rfl

theorem storeInv_create {db : DB} (h : StoreInv db) (repo : String) (issue inst : Nat)
    (title body : Option String) (maxIter cfg now : Nat) :
    StoreInv (createIteration db repo issue inst title body maxIter cfg now).2 := by
  have hd := rowTame_deactRow repo issue
  constructor
  · intro r hr
    rw [createIteration_recs] at hr
    rw [createIteration_next_id]
    rcases List.mem_append.mp hr with hr | hr
    · obtain ⟨s, hs, rfl⟩ := List.mem_map.mp hr
      rw [hd.id_eq]
      exact Nat.lt_succ_of_lt (h.ids_lt s hs)
    · rw [List.mem_singleton.mp hr]
      exact Nat.lt_succ_self _
  · rw [createIteration_recs]
    rw [List.pairwise_append]
    refine ⟨?_, List.pairwise_singleton _ _, ?_⟩
    · rw [List.pairwise_map]
      refine h.ids_distinct.imp ?_
      intro a b hab
      rw [hd.id_eq, hd.id_eq]
      exact hab
    · intro a ha b hb
      obtain ⟨s, hs, rfl⟩ := List.mem_map.mp ha
      rw [List.mem_singleton.mp hb, hd.id_eq]
      exact Nat.ne_of_lt (h.ids_lt s hs)
  · intro repo' issue'
    unfold ActiveKeyCount
    rw [createIteration_recs, List.countP_append, List.countP_map]
    by_cases hkey : repo = repo' ∧ issue = issue'
    · obtain ⟨rfl, rfl⟩ := hkey
      have hzero : List.countP
          ((fun r => decide (r.repo_full_name = repo ∧ r.issue_number = issue ∧ r.is_active = true)) ∘
            deactRow repo issue) db.recs = 0 := by
        rw [List.countP_eq_zero]
        intro s _
        simp only [Function.comp, decide_eq_true_eq]
        unfold deactRow
        split
        · simp
        · rename_i hcond
          exact hcond
      rw [hzero]
      have hone : List.countP
          (fun r => decide (r.repo_full_name = repo ∧ r.issue_number = issue ∧ r.is_active = true))
          [freshRec db repo issue inst title body maxIter cfg now] ≤ 1 := by
        exact List.countP_le_length _
      omega
    · have hfresh : List.countP
          (fun r => decide (r.repo_full_name = repo' ∧ r.issue_number = issue' ∧ r.is_active = true))
          [freshRec db repo issue inst title body maxIter cfg now] = 0 := by
        rw [List.countP_eq_zero]
        intro s hs
        rw [List.mem_singleton.mp hs]
        simp only [freshRec, decide_eq_true_eq, not_and]
        intro h1 h2 _
        exact hkey ⟨h1, h2⟩
      rw [hfresh]
      have hle : List.countP
          ((fun r => decide (r.repo_full_name = repo' ∧ r.issue_number = issue' ∧ r.is_active = true)) ∘
            deactRow repo issue) db.recs ≤ 1 := by
        refine le_trans (List.countP_mono_left ?_) (h.unique_active repo' issue')
        intro s _ hps
        simp only [Function.comp, decide_eq_true_eq] at hps ⊢
        obtain ⟨h1, h2, h3⟩ := hps
        exact ⟨hd.repo_eq s ▸ h1, hd.issue_eq s ▸ h2, hd.active_mono s h3⟩
      omega

theorem boundInv_create {db : DB} (h : BoundInv db) (repo : String) (issue inst : Nat)
    (title body : Option String) (maxIter cfg now : Nat) :
    BoundInv (createIteration db repo issue inst title body maxIter cfg now).2 := by
  intro r hr
  rw [createIteration_recs] at hr
  rcases List.mem_append.mp hr with hr | hr
  · obtain ⟨s, hs, rfl⟩ := List.mem_map.mp hr
    rw [deactRow_cur, deactRow_max]
    exact h s hs
  · rw [List.mem_singleton.mp hr]
    exact Nat.zero_le _

theorem monoLE_create (db : DB) (repo : String) (issue inst : Nat)
    (title body : Option String) (maxIter cfg now : Nat) :
    MonoLE db (createIteration db repo issue inst title body maxIter cfg now).2 := by
  have hd := rowTame_deactRow repo issue
  intro j r hj
  refine ⟨deactRow repo issue r, ?_, le_of_eq (deactRow_cur repo issue r).symm,
    deactRow_max repo issue r⟩
  unfold findById at hj ⊢
  rw [createIteration_recs, List.find?_append]
  have hmap : List.find? (fun s => decide (s.id = j)) (db.recs.map (deactRow repo issue)) =
      some (deactRow repo issue r) := by
    rw [List.find?_map]
    have hp : ((fun s => decide (s.id = j)) ∘ deactRow repo issue) =
        (fun s => decide (s.id = j)) := by
      funext s
      simp only [Function.comp]
      rw [hd.id_eq]
    rw [hp, hj]
    rfl
  rw [hmap]
  rfl

end CodeAgent

namespace CodeAgent

/-! ## Row-level computation lemmas -/

theorem applyKwargs_cur (u : UpdateKwargs) (now : Nat) (r : IssueIteration) :
    (applyKwargs u now r).current_iteration = r.current_iteration := rfl

theorem applyKwargs_max (u : UpdateKwargs) (now : Nat) (r : IssueIteration) :
    (applyKwargs u now r).max_iterations = r.max_iterations := rfl

theorem completeRow_cur (st : IterationStatus) (now : Nat) (r : IssueIteration) :
    (completeRow st now r).current_iteration = r.current_iteration := rfl

theorem completeRow_max (st : IterationStatus) (now : Nat) (r : IssueIteration) :
    (completeRow st now r).max_iterations = r.max_iterations := rfl

theorem incRow_cur (now : Nat) (r : IssueIteration) :
    (incRow now r).current_iteration = r.current_iteration + 1 := by
  unfold incRow
  by_cases h : r.max_iterations ≤ r.current_iteration + 1 <;> simp [h]

theorem incRow_max (now : Nat) (r : IssueIteration) :
    (incRow now r).max_iterations = r.max_iterations := by
  unfold incRow
  by_cases h : r.max_iterations ≤ r.current_iteration + 1 <;> simp [h]

theorem boundInv_mutate_keep {g : IssueIteration → IssueIteration}
    (hc : ∀ r, (g r).current_iteration = r.current_iteration)
    (hm : ∀ r, (g r).max_iterations = r.max_iterations)
    {db : DB} (h : BoundInv db) (i : Nat) : BoundInv (dbMutate i g db).2 :=
  boundInv_mutate h (fun r hr _ => by rw [hc, hm]; exact h r hr)

theorem incrementIteration_split (db : DB) (i now : Nat) :
    incrementIteration db i now =
      ((findById db i).map (incRow now), (incrementIteration db i now).2) := rfl

/-- Identification of rows by primary key under the structural invariant. -/
theorem mem_id_inj {db : DB} (h : StoreInv db) {r s : IssueIteration}
    (hr : r ∈ db.recs) (hs : s ∈ db.recs) (hid : r.id = s.id) : r = s := by
  by_contra hne
  have hsym : Symmetric (fun a b : IssueIteration => a.id ≠ b.id) :=
    fun a b hab => fun hba => hab hba.symm
  exact (h.ids_distinct.forall hsym hr hs hne) hid

theorem findById_of_mem {db : DB} (h : StoreInv db) {r : IssueIteration}
    (hr : r ∈ db.recs) : findById db r.id = some r := by
  cases hfind : findById db r.id with
  | none =>
      rw [findById, List.find?_eq_none] at hfind
      exact absurd (by simp) (hfind r hr)
  | some s =>
      have hps := List.find?_some hfind
      simp only [decide_eq_true_eq] at hps
      have hmem := List.mem_of_find?_eq_some hfind
      rw [mem_id_inj h hmem hr hps]

theorem cur_lt_of_findById {db : DB} (hs : StoreInv db) {i : Nat} {t : IssueIteration}
    (hf : findById db i = some t)
    (hlt : t.current_iteration < t.max_iterations) :
    ∀ r ∈ db.recs, r.id = i → r.current_iteration < r.max_iterations := by
  intro r hr hid
  have h1 : findById db r.id = some r := findById_of_mem hs hr
  rw [hid, hf] at h1
  rw [← Option.some_inj.mp h1]
  exact hlt

/-! ## Flow-level invariant preservation -/

theorem runCode_store {parse : String → Option Plan} {env : CodeEnv}
    {snap : IssueIteration} {now : Nat} {db : DB} (hs : StoreInv db) :
    StoreInv (runCodeIteration parse env snap now db).2.1 ∧
      MonoLE db (runCodeIteration parse env snap now db).2.1 := by
  have hsp : StoreInv (incrementIteration db snap.id now).2 :=
    storeInv_mutate (rowTame_incRow now) hs snap.id
  have hmp : MonoLE db (incrementIteration db snap.id now).2 :=
    monoLE_mutate (rowTame_incRow now) snap.id db
  unfold runCodeIteration
  rw [incrementIteration_split]
  cases hfind : findById db snap.id with
  | none => exact ⟨hsp, hmp⟩
  | some r =>
      simp only [Option.map_some']
      split
      · exact ⟨storeInv_mutate (rowTame_completeRow _ _) hsp _,
          hmp.trans (monoLE_mutate (rowTame_completeRow _ _) _ _)⟩
      · cases hagent : executeCodeAgent parse env (mkContext (incRow now r)) with
        | mk resOpt aevs =>
            cases resOpt with
            | none =>
                exact ⟨storeInv_mutate (rowTame_completeRow _ _) hsp _,
                  hmp.trans (monoLE_mutate (rowTame_completeRow _ _) _ _)⟩
            | some res =>
                exact ⟨storeInv_mutate (rowTame_applyKwargs _ _) hsp _,
                  hmp.trans (monoLE_mutate (rowTame_applyKwargs _ _) _ _)⟩

theorem runCode_bound {parse : String → Option Plan} {env : CodeEnv}
    {snap : IssueIteration} {now : Nat} {db : DB} (hb : BoundInv db)
    (hlt : ∀ r ∈ db.recs, r.id = snap.id →
      r.current_iteration < r.max_iterations) :
    BoundInv (runCodeIteration parse env snap now db).2.1 := by
  have hbp : BoundInv (incrementIteration db snap.id now).2 := by
    refine boundInv_mutate hb ?_
    intro r hr hid
    rw [incRow_cur, incRow_max]
    exact hlt r hr hid
  unfold runCodeIteration
  rw [incrementIteration_split]
  cases hfind : findById db snap.id with
  | none => exact hbp
  | some r =>
      simp only [Option.map_some']
      split
      · exact boundInv_mutate_keep (completeRow_cur _ _) (completeRow_max _ _) hbp _
      · cases hagent : executeCodeAgent parse env (mkContext (incRow now r)) with
        | mk resOpt aevs =>
            cases resOpt with
            | none => exact boundInv_mutate_keep (completeRow_cur _ _) (completeRow_max _ _) hbp _
            | some res =>
                exact boundInv_mutate_keep (applyKwargs_cur _ _) (applyKwargs_max _ _) hbp _

end CodeAgent

namespace CodeAgent

/-- The stored row behind a detached snapshot still carries the snapshot's
counter and budget (the flows only apply counter-preserving updates between
loading a snapshot and acting on it). -/
def SnapOK (db : DB) (snap : IssueIteration) : Prop :=
  ∀ r, findById db snap.id = some r →
    r.current_iteration = snap.current_iteration ∧
      r.max_iterations = snap.max_iterations

theorem snapOK_mutate {g : IssueIteration → IssueIteration}
    (hgid : ∀ r, (g r).id = r.id)
    (hc : ∀ r, (g r).current_iteration = r.current_iteration)
    (hm : ∀ r, (g r).max_iterations = r.max_iterations)
    {db : DB} {snap : IssueIteration} (hsnap : SnapOK db snap) (i : Nat) :
    SnapOK (dbMutate i g db).2 snap := by
  intro r hr
  rw [findById_dbMutate hgid] at hr
  obtain ⟨t, ht, rfl⟩ := Option.map_eq_some'.mp hr
  have hts := hsnap t ht
  unfold rowAt
  split
  · rw [hc, hm]
    exact hts
  · exact hts

theorem hlt_of_snapOK {db : DB} {snap : IssueIteration} (hs : StoreInv db)
    (hsnap : SnapOK db snap)
    (hlt : snap.current_iteration < snap.max_iterations) :
    ∀ r ∈ db.recs, r.id = snap.id → r.current_iteration < r.max_iterations := by
  intro r hr hid
  have h1 : findById db r.id = some r := findById_of_mem hs hr
  rw [hid] at h1
  obtain ⟨hc, hm⟩ := hsnap r h1
  rw [hc, hm]
  exact hlt

theorem decide_store {parse : String → Option Plan} {cenv : CodeEnv}
    {snap : IssueIteration} {rr : ReviewResult} {now : Nat} {db : DB}
    (hs : StoreInv db) :
    StoreInv (decideNextAction parse cenv snap rr now db).1 ∧
      MonoLE db (decideNextAction parse cenv snap rr now db).1 := by
  unfold decideNextAction
  split
  · exact ⟨storeInv_mutate (rowTame_completeRow _ _) hs _,
      monoLE_mutate (rowTame_completeRow _ _) _ _⟩
  split
  · have hs1 : StoreInv (updateIteration db snap.id { status := some .RUNNING } now).2 :=
      storeInv_mutate (rowTame_applyKwargs _ _) hs _
    refine ⟨(runCode_store hs1).1, ?_⟩
    exact (monoLE_mutate (rowTame_applyKwargs _ _) _ _).trans (runCode_store hs1).2
  · exact ⟨storeInv_mutate (rowTame_completeRow _ _) hs _,
      monoLE_mutate (rowTame_completeRow _ _) _ _⟩

theorem decide_bound {parse : String → Option Plan} {cenv : CodeEnv}
    {snap : IssueIteration} {rr : ReviewResult} {now : Nat} {db : DB}
    (hs : StoreInv db) (hb : BoundInv db) (hsnap : SnapOK db snap) :
    BoundInv (decideNextAction parse cenv snap rr now db).1 := by
  unfold decideNextAction
  split
  · exact boundInv_mutate_keep (completeRow_cur _ _) (completeRow_max _ _) hb _
  split
  · rename_i hguard
    have hs1 : StoreInv (updateIteration db snap.id { status := some .RUNNING } now).2 :=
      storeInv_mutate (rowTame_applyKwargs _ _) hs _
    have hb1 : BoundInv (updateIteration db snap.id { status := some .RUNNING } now).2 :=
      boundInv_mutate_keep (applyKwargs_cur _ _) (applyKwargs_max _ _) hb _
    have hsnap1 : SnapOK (updateIteration db snap.id { status := some .RUNNING } now).2 snap :=
      snapOK_mutate (rowTame_applyKwargs _ _).id_eq (applyKwargs_cur _ _)
        (applyKwargs_max _ _) hsnap _
    exact runCode_bound hb1 (hlt_of_snapOK hs1 hsnap1 hguard.2)
  · exact boundInv_mutate_keep (completeRow_cur _ _) (completeRow_max _ _) hb _

theorem review_store {parse : String → Option Plan} {cenv : CodeEnv}
    {renv : ReviewEnv} {snap : IssueIteration} {now : Nat} {db : DB}
    (hs : StoreInv db) :
    StoreInv (runReviewIteration parse cenv renv snap now db).2.1 ∧
      MonoLE db (runReviewIteration parse cenv renv snap now db).2.1 := by
  unfold runReviewIteration
  split
  · exact ⟨storeInv_mutate (rowTame_completeRow _ _) hs _,
      monoLE_mutate (rowTame_completeRow _ _) _ _⟩
  · cases hrev : executeReviewerAgent snap.last_ci_conclusion renv.raw_review with
    | none =>
        exact ⟨storeInv_mutate (rowTame_completeRow _ _) hs _,
          monoLE_mutate (rowTame_completeRow _ _) _ _⟩
    | some rr =>
        have hs1 : StoreInv (updateIteration db snap.id
            { last_review_score := some rr.topScore
              last_review_recommendation := some rr.topRecommendation
              last_review_feedback := some rr.topFeedback } now).2 :=
          storeInv_mutate (rowTame_applyKwargs _ _) hs _
        refine ⟨(decide_store hs1).1, ?_⟩
        exact (monoLE_mutate (rowTame_applyKwargs _ _) _ _).trans (decide_store hs1).2

theorem review_bound {parse : String → Option Plan} {cenv : CodeEnv}
    {renv : ReviewEnv} {snap : IssueIteration} {now : Nat} {db : DB}
    (hs : StoreInv db) (hb : BoundInv db) (hsnap : SnapOK db snap) :
    BoundInv (runReviewIteration parse cenv renv snap now db).2.1 := by
  unfold runReviewIteration
  split
  · exact boundInv_mutate_keep (completeRow_cur _ _) (completeRow_max _ _) hb _
  · cases hrev : executeReviewerAgent snap.last_ci_conclusion renv.raw_review with
    | none => exact boundInv_mutate_keep (completeRow_cur _ _) (completeRow_max _ _) hb _
    | some rr =>
        have hs1 : StoreInv (updateIteration db snap.id
            { last_review_score := some rr.topScore
              last_review_recommendation := some rr.topRecommendation
              last_review_feedback := some rr.topFeedback } now).2 :=
          storeInv_mutate (rowTame_applyKwargs _ _) hs _
        have hb1 : BoundInv (updateIteration db snap.id
            { last_review_score := some rr.topScore
              last_review_recommendation := some rr.topRecommendation
              last_review_feedback := some rr.topFeedback } now).2 :=
          boundInv_mutate_keep (applyKwargs_cur _ _) (applyKwargs_max _ _) hb _
        have hsnap1 : SnapOK (updateIteration db snap.id
            { last_review_score := some rr.topScore
              last_review_recommendation := some rr.topRecommendation
              last_review_feedback := some rr.topFeedback } now).2 snap :=
          snapOK_mutate (rowTame_applyKwargs _ _).id_eq (applyKwargs_cur _ _)
            (applyKwargs_max _ _) hsnap _
        exact decide_bound hs1 hb1 hsnap1

theorem handle_store {parse : String → Option Plan} {cenv : CodeEnv}
    {renv : ReviewEnv} {repo : String} {pr : Nat} {ciStatus ciConclusion : String}
    {now : Nat} {db : DB} (hs : StoreInv db) :
    StoreInv (handleCiCompletion parse cenv renv repo pr ciStatus ciConclusion now db).2.1 ∧
      MonoLE db (handleCiCompletion parse cenv renv repo pr ciStatus ciConclusion now db).2.1 := by
  unfold handleCiCompletion
  cases hlook : getIterationByPr db repo pr with
  | none => exact ⟨hs, MonoLE.rfl db⟩
  | some it =>
      dsimp only
      split
      · exact ⟨hs, MonoLE.rfl db⟩
      split
      · exact ⟨hs, MonoLE.rfl db⟩
      · have hs1 : StoreInv (updateIteration db it.id
            { last_ci_status := some (some ciStatus)
              last_ci_conclusion := some (some ciConclusion)
              status := some .REVIEWING } now).2 :=
          storeInv_mutate (rowTame_applyKwargs _ _) hs _
        refine ⟨(review_store hs1).1, ?_⟩
        exact (monoLE_mutate (rowTame_applyKwargs _ _) _ _).trans (review_store hs1).2

theorem handle_bound {parse : String → Option Plan} {cenv : CodeEnv}
    {renv : ReviewEnv} {repo : String} {pr : Nat} {ciStatus ciConclusion : String}
    {now : Nat} {db : DB} (hs : StoreInv db) (hb : BoundInv db) :
    BoundInv (handleCiCompletion parse cenv renv repo pr ciStatus ciConclusion now db).2.1 := by
  unfold handleCiCompletion
  cases hlook : getIterationByPr db repo pr with
  | none => exact hb
  | some it =>
      dsimp only
      split
      · exact hb
      split
      · exact hb
      · have hmem := List.mem_of_find?_eq_some hlook
        have hsnap : SnapOK db it := by
          intro r hr
          rw [findById_of_mem hs hmem] at hr
          rw [← Option.some_inj.mp hr]
          exact ⟨rfl, rfl⟩
        have hs1 : StoreInv (updateIteration db it.id
            { last_ci_status := some (some ciStatus)
              last_ci_conclusion := some (some ciConclusion)
              status := some .REVIEWING } now).2 :=
          storeInv_mutate (rowTame_applyKwargs _ _) hs _
        have hb1 : BoundInv (updateIteration db it.id
            { last_ci_status := some (some ciStatus)
              last_ci_conclusion := some (some ciConclusion)
              status := some .REVIEWING } now).2 :=
          boundInv_mutate_keep (applyKwargs_cur _ _) (applyKwargs_max _ _) hb _
        have hsnap1 : SnapOK (updateIteration db it.id
            { last_ci_status := some (some ciStatus)
              last_ci_conclusion := some (some ciConclusion)
              status := some .REVIEWING } now).2 it :=
          snapOK_mutate (rowTame_applyKwargs _ _).id_eq (applyKwargs_cur _ _)
            (applyKwargs_max _ _) hsnap _
        exact review_bound hs1 hb1 hsnap1

end CodeAgent

namespace CodeAgent

theorem create_hlt {db : DB} (hs : StoreInv db) {cfg : Nat} (hcfg : 1 ≤ cfg)
    (repo : String) (issue inst : Nat) (title body : Option String) (now : Nat) :
    ∀ r ∈ (createIteration db repo issue inst title body cfg cfg now).2.recs,
      r.id = (createIteration db repo issue inst title body cfg cfg now).1.id →
      r.current_iteration < r.max_iterations := by
  intro r hr hid
  rw [createIteration_recs] at hr
  rcases List.mem_append.mp hr with hr | hr
  · obtain ⟨t, ht, rfl⟩ := List.mem_map.mp hr
    rw [(rowTame_deactRow repo issue).id_eq t] at hid
    have hlt := hs.ids_lt t ht
    rw [hid] at hlt
    exact absurd hlt (lt_irrefl _)
  · rw [List.mem_singleton.mp hr]
    show (freshRec db repo issue inst title body cfg cfg now).current_iteration <
      (freshRec db repo issue inst title body cfg cfg now).max_iterations
    simp only [freshRec, ite_self]
    exact hcfg

theorem start_store {parse : String → Option Plan} {cenv : CodeEnv} {cfg : Nat}
    {repo : String} {issue inst : Nat} {issueData : Option (Option String × Option String)}
    {now : Nat} {db : DB} (hs : StoreInv db) :
    StoreInv (startIssueCycle parse cenv cfg repo issue inst issueData now db).2.1 ∧
      MonoLE db (startIssueCycle parse cenv cfg repo issue inst issueData now db).2.1 := by
  unfold startIssueCycle
  cases hact : getActiveIteration db repo issue with
  | some it => exact ⟨hs, MonoLE.rfl db⟩
  | none =>
      cases issueData with
      | none => exact ⟨hs, MonoLE.rfl db⟩
      | some td =>
          cases td with
          | mk title body =>
              dsimp only
              have hs1 := storeInv_create hs repo issue inst title body cfg cfg now
              exact ⟨(runCode_store hs1).1,
                (monoLE_create db repo issue inst title body cfg cfg now).trans
                  (runCode_store hs1).2⟩

theorem start_bound {parse : String → Option Plan} {cenv : CodeEnv} {cfg : Nat}
    (hcfg : 1 ≤ cfg) {repo : String} {issue inst : Nat}
    {issueData : Option (Option String × Option String)}
    {now : Nat} {db : DB} (hs : StoreInv db) (hb : BoundInv db) :
    BoundInv (startIssueCycle parse cenv cfg repo issue inst issueData now db).2.1 := by
  unfold startIssueCycle
  cases hact : getActiveIteration db repo issue with
  | some it => exact hb
  | none =>
      cases issueData with
      | none => exact hb
      | some td =>
          cases td with
          | mk title body =>
              dsimp only
              exact runCode_bound (boundInv_create hb repo issue inst title body cfg cfg now)
                (create_hlt hs hcfg repo issue inst title body now)

theorem restart_store {parse : String → Option Plan} {cenv : CodeEnv} {cfg : Nat}
    {repo : String} {issue inst : Nat} {issueData : Option (Option String × Option String)}
    {now : Nat} {db : DB} (hs : StoreInv db) :
    StoreInv (restartIssueCycle parse cenv cfg repo issue inst issueData now db).2.1 ∧
      MonoLE db (restartIssueCycle parse cenv cfg repo issue inst issueData now db).2.1 := by
  unfold restartIssueCycle
  cases hact : getActiveIteration db repo issue with
  | some it =>
      dsimp only
      have hs0 : StoreInv (completeIteration db it.id .FAILED now).2 :=
        storeInv_mutate (rowTame_completeRow _ _) hs _
      have hm0 : MonoLE db (completeIteration db it.id .FAILED now).2 :=
        monoLE_mutate (rowTame_completeRow _ _) _ _
      cases issueData with
      | none => exact ⟨hs0, hm0⟩
      | some td =>
          cases td with
          | mk title body =>
              dsimp only
              have hs1 := storeInv_create hs0 repo issue inst title body cfg cfg now
              exact ⟨(runCode_store hs1).1,
                (hm0.trans (monoLE_create _ repo issue inst title body cfg cfg now)).trans
                  (runCode_store hs1).2⟩
  | none =>
      dsimp only
      cases issueData with
      | none => exact ⟨hs, MonoLE.rfl db⟩
      | some td =>
          cases td with
          | mk title body =>
              dsimp only
              have hs1 := storeInv_create hs repo issue inst title body cfg cfg now
              exact ⟨(runCode_store hs1).1,
                (monoLE_create db repo issue inst title body cfg cfg now).trans
                  (runCode_store hs1).2⟩

theorem restart_bound {parse : String → Option Plan} {cenv : CodeEnv} {cfg : Nat}
    (hcfg : 1 ≤ cfg) {repo : String} {issue inst : Nat}
    {issueData : Option (Option String × Option String)}
    {now : Nat} {db : DB} (hs : StoreInv db) (hb : BoundInv db) :
    BoundInv (restartIssueCycle parse cenv cfg repo issue inst issueData now db).2.1 := by
  unfold restartIssueCycle
  cases hact : getActiveIteration db repo issue with
  | some it =>
      dsimp only
      have hs0 : StoreInv (completeIteration db it.id .FAILED now).2 :=
        storeInv_mutate (rowTame_completeRow _ _) hs _
      have hb0 : BoundInv (completeIteration db it.id .FAILED now).2 :=
        boundInv_mutate_keep (completeRow_cur _ _) (completeRow_max _ _) hb _
      cases issueData with
      | none => exact hb0
      | some td =>
          cases td with
          | mk title body =>
              dsimp only
              exact runCode_bound (boundInv_create hb0 repo issue inst title body cfg cfg now)
                (create_hlt hs0 hcfg repo issue inst title body now)
  | none =>
      dsimp only
      cases issueData with
      | none => exact hb
      | some td =>
          cases td with
          | mk title body =>
              dsimp only
              exact runCode_bound (boundInv_create hb repo issue inst title body cfg cfg now)
                (create_hlt hs hcfg repo issue inst title body now)

/-! ## Step and reachability invariants -/

theorem step_store {parse : String → Option Plan} {cfg : Nat} {db db' : DB}
    {evs : List Event} (h : Step parse cfg db db' evs) (hs : StoreInv db) :
    StoreInv db' ∧ MonoLE db db' := by
  cases h with
  | start cenv repo issue inst issueData now _ => exact start_store hs
  | restart cenv repo issue inst issueData now _ => exact restart_store hs
  | ciEvent cenv renv repo pr ciStatus ciConclusion now _ => exact handle_store hs

theorem step_bound {parse : String → Option Plan} {cfg : Nat} (hcfg : 1 ≤ cfg)
    {db db' : DB} {evs : List Event} (h : Step parse cfg db db' evs)
    (hs : StoreInv db) (hb : BoundInv db) : BoundInv db' := by
  cases h with
  | start cenv repo issue inst issueData now _ => exact start_bound hcfg hs hb
  | restart cenv repo issue inst issueData now _ => exact restart_bound hcfg hs hb
  | ciEvent cenv renv repo pr ciStatus ciConclusion now _ => exact handle_bound hs hb

theorem storeInv_empty : StoreInv {} := by
  refine ⟨?_, ?_, ?_⟩
  · intro r hr
    simp [DB.recs] at hr
  · exact List.Pairwise.nil
  · intro repo issue
    simp [ActiveKeyCount, DB.recs]

theorem reachable_store {parse : String → Option Plan} {cfg : Nat} {db : DB}
    (h : Reachable parse cfg db) : StoreInv db := by
  induction h with
  | init => exact storeInv_empty
  | next _ hstep ih => exact (step_store hstep ih).1

theorem reachable_bound {parse : String → Option Plan} {cfg : Nat} (hcfg : 1 ≤ cfg)
    {db : DB} (h : Reachable parse cfg db) : BoundInv db := by
  induction h with
  | init => intro r hr; simp [DB.recs] at hr
  | next hre hstep ih => exact step_bound hcfg hstep (reachable_store hre) ih

end CodeAgent

namespace CodeAgent

/-! ## Which records a step can start a code iteration for -/

theorem exec_no_codeIter (parse : String → Option Plan) (env : CodeEnv)
    (ctx : AgentContext) (i : Nat) :
    Event.codeIterStarted i ∉ (executeCodeAgent parse env ctx).2 := by
  unfold executeCodeAgent
  split
  · simp
  · cases hplan : analyzeIssueRequirements parse env.llm ctx with
    | none => simp
    | some p =>
        dsimp only
        split
        · simp
        · cases hpr : ctx.pr_number with
          | some n =>
              dsimp only
              split <;> simp
          | none =>
              dsimp only
              cases hcp : env.create_pr with
              | some n => simp
              | none => simp

theorem runCode_codeIter {parse : String → Option Plan} {env : CodeEnv}
    {snap : IssueIteration} {now : Nat} {db : DB} {i : Nat}
    (h : Event.codeIterStarted i ∈ (runCodeIteration parse env snap now db).2.2) :
    i = snap.id := by
  unfold runCodeIteration at h
  cases hinc : (incrementIteration db snap.id now).1 with
  | none =>
      rw [hinc] at h
      simp at h
      exact h
  | some it =>
      rw [hinc] at h
      dsimp only at h
      rcases hsplit : it.max_iterations ≤ it.current_iteration with _
      by_cases hbudget : it.max_iterations ≤ it.current_iteration
      · rw [if_pos hbudget] at h
        simp at h
        exact h
      · rw [if_neg hbudget] at h
        cases hagent : executeCodeAgent parse env (mkContext it) with
        | mk resOpt aevs =>
            have haevs : aevs = (executeCodeAgent parse env (mkContext it)).2 :=
              (congrArg Prod.snd hagent).symm
            cases resOpt with
            | none =>
                rw [hagent] at h
                dsimp only at h
                rcases List.mem_cons.mp h with h | h
                · simpa using h
                · rcases List.mem_append.mp h with h | h
                  · rw [haevs] at h
                    exact absurd h (exec_no_codeIter parse env (mkContext it) i)
                  · simp at h
            | some res =>
                rw [hagent] at h
                dsimp only at h
                rcases List.mem_cons.mp h with h | h
                · simpa using h
                · rw [haevs] at h
                  exact absurd h (exec_no_codeIter parse env (mkContext it) i)

theorem decide_codeIter {parse : String → Option Plan} {cenv : CodeEnv}
    {snap : IssueIteration} {rr : ReviewResult} {now : Nat} {db : DB} {i : Nat}
    (h : Event.codeIterStarted i ∈ (decideNextAction parse cenv snap rr now db).2) :
    i = snap.id := by
  unfold decideNextAction at h
  rcases h1 : (rr.overall_assessment.recommendation = "approve" ∨
      rr.overall_assessment.recommendation = "approve_with_suggestions") ∧
      snap.last_ci_conclusion = some "success" with _
  by_cases hc1 : (rr.overall_assessment.recommendation = "approve" ∨
      rr.overall_assessment.recommendation = "approve_with_suggestions") ∧
      snap.last_ci_conclusion = some "success"
  · rw [if_pos hc1] at h
    simp at h
  · rw [if_neg hc1] at h
    by_cases hc2 : rr.overall_assessment.recommendation = "request_changes" ∧
        snap.current_iteration < snap.max_iterations
    · rw [if_pos hc2] at h
      exact runCode_codeIter h
    · rw [if_neg hc2] at h
      simp at h

theorem review_codeIter {parse : String → Option Plan} {cenv : CodeEnv}
    {renv : ReviewEnv} {snap : IssueIteration} {now : Nat} {db : DB} {i : Nat}
    (h : Event.codeIterStarted i ∈ (runReviewIteration parse cenv renv snap now db).2.2) :
    i = snap.id := by
  unfold runReviewIteration at h
  by_cases hf : ¬ renv.fetch_ok
  · rw [if_pos hf] at h
    simp at h
  · rw [if_neg hf] at h
    cases hrev : executeReviewerAgent snap.last_ci_conclusion renv.raw_review with
    | none =>
        rw [hrev] at h
        simp at h
    | some rr =>
        rw [hrev] at h
        dsimp only at h
        rcases List.mem_cons.mp h with h | h
        · exact absurd h (by simp)
        · exact decide_codeIter h

theorem handle_codeIter {parse : String → Option Plan} {cenv : CodeEnv}
    {renv : ReviewEnv} {repo : String} {pr : Nat} {ciStatus ciConclusion : String}
    {now : Nat} {db : DB} {i : Nat}
    (h : Event.codeIterStarted i ∈
      (handleCiCompletion parse cenv renv repo pr ciStatus ciConclusion now db).2.2) :
    ∃ it, getIterationByPr db repo pr = some it ∧ it.status = .WAITING_CI ∧ i = it.id := by
  unfold handleCiCompletion at h
  cases hlook : getIterationByPr db repo pr with
  | none =>
      rw [hlook] at h
      simp at h
  | some it =>
      rw [hlook] at h
      dsimp only at h
      by_cases h1 : it.status = .REVIEWING
      · rw [if_pos h1] at h
        simp at h
      · rw [if_neg h1] at h
        by_cases h2 : it.status ≠ .WAITING_CI
        · rw [if_pos h2] at h
          simp at h
        · rw [if_neg h2] at h
          exact ⟨it, rfl, not_not.mp h2, review_codeIter h⟩

theorem start_codeIter {parse : String → Option Plan} {cenv : CodeEnv} {cfg : Nat}
    {repo : String} {issue inst : Nat} {issueData : Option (Option String × Option String)}
    {now : Nat} {db : DB} {i : Nat}
    (h : Event.codeIterStarted i ∈
      (startIssueCycle parse cenv cfg repo issue inst issueData now db).2.2) :
    i = db.next_id := by
  unfold startIssueCycle at h
  cases hact : getActiveIteration db repo issue with
  | some it =>
      rw [hact] at h
      simp at h
  | none =>
      rw [hact] at h
      cases issueData with
      | none => simp at h
      | some td =>
          cases td with
          | mk title body =>
              dsimp only at h
              exact runCode_codeIter h

theorem restart_codeIter {parse : String → Option Plan} {cenv : CodeEnv} {cfg : Nat}
    {repo : String} {issue inst : Nat} {issueData : Option (Option String × Option String)}
    {now : Nat} {db : DB} {i : Nat}
    (h : Event.codeIterStarted i ∈
      (restartIssueCycle parse cenv cfg repo issue inst issueData now db).2.2) :
    i = db.next_id := by
  unfold restartIssueCycle at h
  cases hact : getActiveIteration db repo issue with
  | some it =>
      rw [hact] at h
      dsimp only at h
      cases issueData with
      | none => simp at h
      | some td =>
          cases td with
          | mk title body =>
              dsimp only at h
              exact runCode_codeIter h
  | none =>
      rw [hact] at h
      dsimp only at h
      cases issueData with
      | none => simp at h
      | some td =>
          cases td with
          | mk title body =>
              dsimp only at h
              exact runCode_codeIter h

end CodeAgent

namespace CodeAgent

/-! ## Characterization lemmas for the individual operations -/

theorem incRow_id (now : Nat) (r : IssueIteration) : (incRow now r).id = r.id := by
  unfold incRow
  by_cases h : r.max_iterations ≤ r.current_iteration + 1 <;> simp [h]

theorem incRow_active (now : Nat) (r : IssueIteration) :
    (incRow now r).is_active = r.is_active := by
  unfold incRow
  by_cases h : r.max_iterations ≤ r.current_iteration + 1 <;> simp [h]

theorem completeRow_active (st : IterationStatus) (now : Nat) (r : IssueIteration) :
    (completeRow st now r).is_active = false := rfl

theorem completeRow_status (st : IterationStatus) (now : Nat) (r : IssueIteration) :
    (completeRow st now r).status = st := rfl

theorem completeRow_completed_at (st : IterationStatus) (now : Nat) (r : IssueIteration) :
    (completeRow st now r).completed_at = some now := rfl

/-- `increment_iteration` reaching the budget forces `FAILED` and stamps
`completed_at`. -/
theorem increment_forced {db : DB} {i now : Nat} {r' : IssueIteration}
    (h : (incrementIteration db i now).1 = some r')
    (hge : r'.max_iterations ≤ r'.current_iteration) :
    r'.status = .FAILED ∧ r'.completed_at = some now := by
  rw [incrementIteration, dbMutate_fst] at h
  obtain ⟨t, ht, rfl⟩ := Option.map_eq_some'.mp h
  rw [incRow_max, incRow_cur] at hge
  unfold incRow
  rw [if_pos]
  · exact ⟨rfl, rfl⟩
  · exact hge

/-- The returned row of `increment_iteration` keeps the activity flag of the
stored row. -/
theorem increment_fst_active {db : DB} {i now : Nat} {t : IssueIteration}
    (ht : findById db i = some t) :
    (incrementIteration db i now).1 = some (incRow now t) ∧
      (incRow now t).is_active = t.is_active := by
  rw [incrementIteration, dbMutate_fst, ht]
  exact ⟨rfl, incRow_active now t⟩

/-! ## The greedy brace span is a brace-delimited substring -/

theorem braceSpan_spec {cs sub : List Char} (h : braceSpan cs = some sub) :
    sub <:+: cs ∧ sub.head? = some '{' ∧ sub.getLast? = some '}' := by
  unfold braceSpan at h
  cases hfi : cs.findIdx? (fun c => decide (c = '{')) with
  | none => rw [hfi] at h; exact absurd h (by simp)
  | some i =>
      cases hfj : cs.reverse.findIdx? (fun c => decide (c = '}')) with
      | none => rw [hfi, hfj] at h; exact absurd h (by simp)
      | some k =>
          rw [hfi, hfj] at h
          dsimp only at h
          by_cases hij : i < cs.length - 1 - k
          · rw [if_pos hij] at h
            have hsub : sub = (cs.drop i).take (cs.length - 1 - k - i + 1) :=
              (Option.some_inj.mp h).symm
            obtain ⟨hilt, hifind⟩ := List.findIdx?_eq_some_iff_findIdx_eq.mp hfi
            obtain ⟨hklt, hkfind⟩ := List.findIdx?_eq_some_iff_findIdx_eq.mp hfj
            have hklt' : k < cs.length := by
              rw [List.length_reverse] at hklt
              exact hklt
            have hjlt : cs.length - 1 - k < cs.length := by omega
            have hci : cs[i] = '{' := by
              have hx := @List.findIdx_getElem _ (fun c => decide (c = '{')) cs
                (hifind ▸ hilt)
              simp only [decide_eq_true_eq, hifind] at hx
              exact hx
            have hcj : cs[cs.length - 1 - k] = '}' := by
              have hw : cs.reverse.findIdx (fun c => decide (c = '}')) <
                  cs.reverse.length := hkfind ▸ hklt
              have hx := @List.findIdx_getElem _ (fun c => decide (c = '}')) cs.reverse hw
              simp only [decide_eq_true_eq, hkfind] at hx
              rw [List.getElem_reverse] at hx
              exact hx
            refine ⟨?_, ?_, ?_⟩
            · rw [hsub]
              exact (List.take_prefix _ _).isInfix.trans (List.drop_suffix _ _).isInfix
            · rw [hsub, List.head?_eq_getElem?, List.getElem?_take, if_pos (by omega),
                List.getElem?_drop]
              rw [Nat.add_zero]
              rw [List.getElem?_eq_getElem hilt, hci]
            · have hlen : ((cs.drop i).take (cs.length - 1 - k - i + 1)).length =
                  cs.length - 1 - k - i + 1 := by
                rw [List.length_take, List.length_drop]
                omega
              rw [hsub, List.getLast?_eq_getElem?, hlen]
              rw [List.getElem?_take, if_pos (by omega), List.getElem?_drop]
              have harith : i + (cs.length - 1 - k - i + 1 - 1) = cs.length - 1 - k := by
                omega
              rw [harith]
              rw [List.getElem?_eq_getElem (by omega), hcj]
          · rw [if_neg hij] at h
            exact absurd h (by simp)

/-- If no brace-delimited substring of the response parses, the JSON
extraction yields no plan. -/
theorem extract_none {parse : String → Option Plan} {s : String}
    (h : ∀ sub : List Char, sub <:+: s.toList → sub.head? = some '{' →
      sub.getLast? = some '}' → parse (String.mk sub) = none) :
    extractJsonObject parse s = none := by
  unfold extractJsonObject
  cases hbs : braceSpan s.toList with
  | none => rfl
  | some sub =>
      obtain ⟨hinf, hh, hl⟩ := braceSpan_spec hbs
      exact h sub hinf hh hl

theorem exec_none_of_noplan {parse : String → Option Plan} {env : CodeEnv}
    {ctx : AgentContext} (h : analyzeIssueRequirements parse env.llm ctx = none) :
    (executeCodeAgent parse env ctx).1 = none := by
  unfold executeCodeAgent
  split
  · rfl
  · rw [h]

theorem exec_none_no_prCreated {parse : String → Option Plan} {env : CodeEnv}
    {ctx : AgentContext} (h : (executeCodeAgent parse env ctx).1 = none) (n : Nat) :
    Event.prCreated n ∉ (executeCodeAgent parse env ctx).2 := by
  unfold executeCodeAgent at h ⊢
  by_cases hbr : branchStepOk env = true
  · rw [if_neg (not_not_intro hbr)] at h ⊢
    cases hplan : analyzeIssueRequirements parse env.llm ctx with
    | none => simp
    | some p =>
        rw [hplan] at h
        dsimp only at h ⊢
        by_cases happ : env.apply_ok = true
        · rw [if_neg (not_not_intro happ)] at h ⊢
          cases hpr : ctx.pr_number with
          | some m =>
              rw [hpr] at h
              dsimp only at h ⊢
              by_cases hup : env.update_pr_ok = true
              · rw [if_pos hup] at h
                exact absurd h (by simp)
              · rw [if_neg hup]
                simp
          | none =>
              rw [hpr] at h
              dsimp only at h
              cases hcp : env.create_pr with
              | some m =>
                  rw [hcp] at h
                  dsimp only at h
                  exact absurd h (by simp)
              | none => simp
        · rw [if_pos happ]
          simp
  · rw [if_pos hbr]
    simp

end CodeAgent

namespace CodeAgent

/-! ## Concrete fixtures for run evaluations -/

/-- A JSON parser accepting exactly the text `{}` (the empty JSON object),
as `json.loads` would, and rejecting everything else. -/
def demoParse : String → Option Plan :=
  fun s => if s = "{}" then some {} else none

/-- A code-step environment whose assistant answers the empty JSON object
and whose PR creation yields PR 7. -/
def demoCenv : CodeEnv :=
  { llm := fun _ => "{}", create_pr := some 7 }

/-- A reviewer raw result with the given overall score, recommendation and
summary. -/
def demoRaw (score : ℚ) (recommendation summary : String) : ReviewResult :=
  { overall_assessment :=
      { score := score, status_label := "done", recommendation := recommendation,
        summary := summary }
    code_quality_summary := "cq"
    requirements_compliance_summary := "rc"
    security_summary := "sec" }

/-- A record one code iteration in, waiting for CI on PR 7, with no CI
conclusion stored yet (the state right before the first CI event). -/
def demoRec : IssueIteration :=
  { id := 1, repo_full_name := "o/r", issue_number := 42, pr_number := some 7
    installation_id := 9, current_iteration := 1, max_iterations := 5
    status := .WAITING_CI, issue_title := some "t", issue_body := some "b"
    branch_name := some "agent/issue-42" }

/-- Store holding exactly `demoRec`. -/
def demoDb : DB := { recs := [demoRec], next_id := 2 }

/-- Store whose record already carries `last_ci_conclusion = "success"` from
an earlier CI event and is again waiting for CI. -/
def staleDb : DB :=
  { recs := [{ demoRec with last_ci_conclusion := some "success" }], next_id := 2 }

end CodeAgent

namespace CodeAgent

/-- The demo record already in review. -/
def demoRecReviewing : IssueIteration := { demoRec with status := .REVIEWING }

/-- Store holding `demoRec` already in review. -/
def revDb : DB := { recs := [demoRecReviewing], next_id := 2 }

/-- Store whose only record for PR 7 is terminal (`COMPLETED`, inactive). -/
def doneDb : DB :=
  { recs := [{ demoRec with status := .COMPLETED, is_active := false }], next_id := 2 }

/-- C1: evaluation of the code at the failing input.  A record in
`WAITING_CI` with no CI conclusion stored yet receives its first
CI-completion event with conclusion `success`, and the review recommends
`approve`.  The claim (and spec §4.6/§8) requires the decide-next-action
step to complete the record as `COMPLETED`; the code completes it as
`FAILED`, because `_decide_next_action` reads `last_ci_conclusion` from the
detached snapshot loaded *before* `handle_ci_completion` stored the event's
conclusion — the snapshot still holds `None`, so `ci_success` is false. -/
theorem c1_approve_with_ci_success_ends_failed :
    (findById (handleCiCompletion demoParse demoCenv
        { raw_review := some (demoRaw 50 "approve" "Looks good") }
        "o/r" 7 "completed" "success" 3 demoDb).2.1 1).map IssueIteration.status =
      some .FAILED ∧
    (handleCiCompletion demoParse demoCenv
        { raw_review := some (demoRaw 50 "approve" "Looks good") }
        "o/r" 7 "completed" "success" 3 demoDb).2.2 =
      [Event.reviewProduced (demoRaw 50 "approve" "Looks good"),
       Event.completedCall 1 .FAILED
         "Max iterations reached or unresolvable issues. Last recommendation: approve"] ∧
    IterationStatus.FAILED ≠ IterationStatus.COMPLETED := by
  refine ⟨by decide, by decide, by decide⟩

/-- C4: for every record in status `REVIEWING`, delivering a CI-completion
event for its PR is a no-op: `handle_ci_completion` returns `True` with the
store unchanged and produces no event at all — in particular no review —
so a second delivery while the first is being reviewed yields no second
review. -/
theorem c4_reviewing_noop {parse : String → Option Plan} {cenv : CodeEnv}
    {renv : ReviewEnv} {repo : String} {pr : Nat} {ciStatus ciConclusion : String}
    {now : Nat} {db : DB} {it : IssueIteration}
    (hlook : getIterationByPr db repo pr = some it)
    (hstat : it.status = .REVIEWING) :
    handleCiCompletion parse cenv renv repo pr ciStatus ciConclusion now db =
      (true, db, []) := by
  unfold handleCiCompletion
  rw [hlook]
  dsimp only
  rw [if_pos hstat]

/-- Witness for C4 at a concrete reviewing record. -/
theorem c4_reviewing_noop_witness :
    getIterationByPr revDb "o/r" 7 = some demoRecReviewing ∧
    demoRecReviewing.status = .REVIEWING ∧
    handleCiCompletion demoParse demoCenv { raw_review := none }
      "o/r" 7 "completed" "success" 3 revDb = (true, revDb, []) :=
  ⟨by decide, by decide,
   @c4_reviewing_noop demoParse demoCenv { raw_review := none } "o/r" 7 "completed"
     "success" 3 revDb demoRecReviewing (by decide) (by decide)⟩

/-- C5 counterexample: for a PR whose only record is terminal
(`COMPLETED`, hence inactive), `handle_ci_completion` does leave the store
unchanged and produces no review, but it returns `False` — the same value
as its error path — not the successful no-op outcome (`True`) the claim
requires. -/
theorem c5_counterexample :
    handleCiCompletion demoParse demoCenv { raw_review := some (demoRaw 90 "approve" "ok") }
      "o/r" 7 "completed" "success" 3 doneDb = (false, doneDb, []) ∧
    (false : Bool) ≠ true := ⟨by decide, by decide⟩

/-- C5 as amended: when no active record matches `(repo, pr)` — in
particular when the only record is terminal, since terminal records are
inactive — `handle_ci_completion` changes no record state and produces no
review, and returns `False`, the same not-found result as its error path;
the successful `True` no-op is reserved for still-active records not in
`WAITING_CI`. -/
theorem c5_inactive_lookup_returns_false {parse : String → Option Plan}
    {cenv : CodeEnv} {renv : ReviewEnv} {repo : String} {pr : Nat}
    {ciStatus ciConclusion : String} {now : Nat} {db : DB}
    (h : ∀ r ∈ db.recs, r.repo_full_name = repo → r.pr_number = some pr →
      r.is_active = false) :
    handleCiCompletion parse cenv renv repo pr ciStatus ciConclusion now db =
      (false, db, []) := by
  have hnone : getIterationByPr db repo pr = none := by
    rw [getIterationByPr, List.find?_eq_none]
    intro x hx
    simp only [decide_eq_true_eq, not_and]
    intro h1 h2
    rw [h x hx h1 h2]
    simp
  unfold handleCiCompletion
  rw [hnone]

/-- Witness for the amended C5 at the terminal record. -/
theorem c5_inactive_lookup_returns_false_witness :
    (∀ r ∈ doneDb.recs, r.repo_full_name = "o/r" → r.pr_number = some 7 →
      r.is_active = false) ∧
    handleCiCompletion demoParse demoCenv { raw_review := none }
      "o/r" 7 "completed" "failure" 3 doneDb = (false, doneDb, []) :=
  ⟨by decide, c5_inactive_lookup_returns_false (by decide)⟩

/-- C6: evaluation of the code at the failing input.  A review with
recommendation `request_changes` and feedback text in its (spec-modelled)
overall assessment loops the record back and schedules the next code
iteration — but `_run_review_iteration` persists
`review_result.get("score"/"recommendation"/"feedback")`, *top-level* keys
the result dict does not have (its own siblings `_decide_next_action` and
`_post_review_results` read `overall_assessment` instead), so
`last_review_feedback` is stored as `None` and the next planning prompt
carries no feedback section at all, contradicting the claim that the
persisted review feedback is included in the next plan's prompt. -/
theorem c6_feedback_not_carried :
    (findById (handleCiCompletion demoParse demoCenv
        { raw_review := some (demoRaw 40 "request_changes" "Please add unit tests") }
        "o/r" 7 "completed" "success" 3 staleDb).2.1 1).map
      IssueIteration.last_review_feedback = some none ∧
    (handleCiCompletion demoParse demoCenv
        { raw_review := some (demoRaw 40 "request_changes" "Please add unit tests") }
        "o/r" 7 "completed" "success" 3 staleDb).2.2 =
      [Event.reviewProduced (demoRaw 40 "request_changes" "Please add unit tests"),
       Event.codeIterStarted 1,
       Event.planRequested "Issue #42: t\n\nDescription:\nb\n\nIteration: 2",
       Event.prUpdated 7] ∧
    hasSubstr "Issue #42: t\n\nDescription:\nb\n\nIteration: 2"
      "Please add unit tests" = false := by
  refine ⟨by decide, by decide, by decide⟩

/-- C7: evaluation of the code at the failing input.  A webhook delivery
with a valid `sha256` signature is accepted, and the handler responds
`{"status": "ok"}` having performed *zero* orchestrator calls — the
`github_webhook` body only verifies, logs and responds; it never invokes
`start_issue_cycle`, `restart_issue_cycle` or `handle_ci_completion`,
contradicting the claim that every accepted event reaches the
orchestrator before the response. -/
theorem c7_webhook_makes_no_orchestrator_call :
    verifySignature "abc" (some "sha256=abc") = true ∧
    githubWebhook "abc" (some "sha256=abc") (some "issues")
      "\x7b\"action\": \"opened\", \"issue\": \x7b\"number\": 42\x7d\x7d" = .ok ("ok", []) :=
  ⟨rfl, rfl⟩

end CodeAgent

namespace CodeAgent

/-- C2: through the orchestrator's use of the record store (any positive
configured budget), (a) every reachable state satisfies
`current_iteration ≤ max_iterations`; (b) a step never decreases a record's
counter; (c) whenever `increment_iteration` makes the counter meet or
exceed the budget, the record's status becomes `FAILED` and `completed_at`
is stamped; (d) no step starting from a reachable state runs a
code-generation step for a record that is already `FAILED`. -/
theorem c2_iteration_budget {parse : String → Option Plan} {cfg : Nat} (hcfg : 1 ≤ cfg)
    {db db' : DB} {evs : List Event}
    (hre : Reachable parse cfg db) (hstep : Step parse cfg db db' evs) :
    (∀ r ∈ db.recs, r.current_iteration ≤ r.max_iterations) ∧
    (∀ j r r', findById db j = some r → findById db' j = some r' →
      r.current_iteration ≤ r'.current_iteration) ∧
    (∀ i now r', (incrementIteration db i now).1 = some r' →
      r'.max_iterations ≤ r'.current_iteration →
      r'.status = .FAILED ∧ r'.completed_at = some now) ∧
    (∀ r ∈ db.recs, r.status = .FAILED → Event.codeIterStarted r.id ∉ evs) := by
  have hs := reachable_store hre
  refine ⟨reachable_bound hcfg hre, ?_, ?_, ?_⟩
  · intro j r r' hr hr'
    obtain ⟨r'', hr'', hc, _⟩ := (step_store hstep hs).2 j r hr
    rw [hr'] at hr''
    rw [Option.some_inj.mp hr'']
    exact hc
  · intro i now r' h hge
    exact increment_forced h hge
  · intro r hr hfail hmem
    cases hstep with
    | start cenv repo issue inst issueData now _ =>
        have hid := start_codeIter hmem
        have hlt := hs.ids_lt r hr
        omega
    | restart cenv repo issue inst issueData now _ =>
        have hid := restart_codeIter hmem
        have hlt := hs.ids_lt r hr
        omega
    | ciEvent cenv renv repo pr ciStatus ciConclusion now _ =>
        obtain ⟨it, hlook, hwait, hid⟩ := handle_codeIter hmem
        have hitmem := List.mem_of_find?_eq_some hlook
        have heq : r = it := mem_id_inj hs hr hitmem hid
        rw [heq, hwait] at hfail
        exact IterationStatus.noConfusion hfail

/-- Witness for C2: the empty store is reachable with budget 5, a
CI-completion step applies to it, and the theorem's conclusions hold
there. -/
theorem c2_iteration_budget_witness :
    (1 ≤ 5) ∧ Reachable demoParse 5 {} ∧
    (∀ r ∈ (({} : DB)).recs, r.current_iteration ≤ r.max_iterations) ∧
    (∀ r ∈ (({} : DB)).recs, r.status = .FAILED →
      Event.codeIterStarted r.id ∉
        (handleCiCompletion demoParse demoCenv { raw_review := none }
          "o/r" 7 "completed" "success" 0 {}).2.2) := by
  have h := @c2_iteration_budget demoParse 5 (by norm_num) {}
    (handleCiCompletion demoParse demoCenv { raw_review := none }
      "o/r" 7 "completed" "success" 0 {}).2.1
    (handleCiCompletion demoParse demoCenv { raw_review := none }
      "o/r" 7 "completed" "success" 0 {}).2.2
    Reachable.init
    (Step.ciEvent demoCenv { raw_review := none } "o/r" 7 "completed" "success" 0 {})
  exact ⟨by norm_num, Reachable.init, h.1, h.2.2.2⟩

/-- C3: in every reachable store state, at most one active record exists
per `(repository, issue)` key; and `create_iteration` returns a fresh
active record at `current_iteration = 0` in status `RUNNING` after
deactivating every other record of that issue — in the resulting store the
fresh record is the only active one for its key. -/
theorem c3_unique_active {parse : String → Option Plan} {cfg : Nat} {db : DB}
    (hre : Reachable parse cfg db) :
    (∀ repo issue, ActiveKeyCount db repo issue ≤ 1) ∧
    (∀ (db0 : DB) (repo : String) (issue inst : Nat) (title body : Option String)
      (maxIter cfg' now : Nat),
      (createIteration db0 repo issue inst title body maxIter cfg' now).1.is_active = true ∧
      (createIteration db0 repo issue inst title body maxIter cfg' now).1.current_iteration = 0 ∧
      (createIteration db0 repo issue inst title body maxIter cfg' now).1.status = .RUNNING ∧
      ∀ r ∈ (createIteration db0 repo issue inst title body maxIter cfg' now).2.recs,
        r.is_active = true → r.repo_full_name = repo → r.issue_number = issue →
        r = (createIteration db0 repo issue inst title body maxIter cfg' now).1) := by
  refine ⟨(reachable_store hre).unique_active, ?_⟩
  intro db0 repo issue inst title body maxIter cfg' now
  refine ⟨rfl, rfl, rfl, ?_⟩
  intro r hr hact hrepo hissue
  rw [createIteration_recs] at hr
  rcases List.mem_append.mp hr with hr | hr
  · obtain ⟨t, ht, rfl⟩ := List.mem_map.mp hr
    by_cases hcond : t.repo_full_name = repo ∧ t.issue_number = issue ∧ t.is_active = true
    · unfold deactRow at hact
      rw [if_pos hcond] at hact
      exact absurd hact (by simp)
    · unfold deactRow at hact hrepo hissue
      rw [if_neg hcond] at hact hrepo hissue
      exact absurd ⟨hrepo, hissue, hact⟩ hcond
  · rw [List.mem_singleton.mp hr]
    rfl

/-- Witness for C3 at the initial (reachable) empty store. -/
theorem c3_unique_active_witness :
    Reachable demoParse 5 {} ∧
    (∀ repo issue, ActiveKeyCount {} repo issue ≤ 1) ∧
    (createIteration {} "o/r" 42 9 (some "t") (some "b") 5 5 0).1.is_active = true :=
  ⟨Reachable.init, (@c3_unique_active demoParse 5 {} Reachable.init).1,
   ((@c3_unique_active demoParse 5 {} Reachable.init).2 {} "o/r" 42 9 (some "t")
     (some "b") 5 5 0).1⟩

end CodeAgent

namespace CodeAgent

theorem findById_inc {db : DB} {i now : Nat} {r : IssueIteration}
    (hfind : findById db i = some r) :
    findById (incrementIteration db i now).2 i = some (incRow now r) := by
  have hrid : r.id = i := by
    have := List.find?_some hfind
    simpa using this
  rw [incrementIteration, findById_dbMutate (incRow_id now)]
  rw [hfind]
  dsimp only [Option.map_some']
  unfold rowAt
  rw [if_pos hrid]

theorem findById_complete_inc {db : DB} {i now : Nat} {r : IssueIteration}
    (hfind : findById db i = some r) :
    findById (completeIteration (incrementIteration db i now).2
        (incRow now r).id .FAILED now).2 i =
      some (completeRow .FAILED now (incRow now r)) := by
  rw [completeIteration, findById_dbMutate (g := completeRow .FAILED now) (fun t => rfl)]
  rw [findById_inc hfind]
  dsimp only [Option.map_some']
  unfold rowAt
  rw [if_pos rfl]

/-- C8: for every assistant response containing no brace-delimited
substring that parses as a JSON object, the plan analysis yields no plan,
the whole code-generation step fails (`False`), the record is completed as
`FAILED` (and deactivated) with the `_complete_iteration` message
"Code generation failed", and no pull request is created. -/
theorem c8_no_parseable_plan_fails {parse : String → Option Plan} {env : CodeEnv}
    {snap : IssueIteration} {now : Nat} {db : DB} {r : IssueIteration}
    (hfind : findById db snap.id = some r)
    (hbudget : r.current_iteration + 1 < r.max_iterations)
    (hparse : ∀ sub : List Char,
      sub <:+: (env.llm (analysisMessages (mkContext (incRow now r)))).toList →
      sub.head? = some '{' → sub.getLast? = some '}' →
      parse (String.mk sub) = none) :
    analyzeIssueRequirements parse env.llm (mkContext (incRow now r)) = none ∧
    (runCodeIteration parse env snap now db).1 = false ∧
    (findById (runCodeIteration parse env snap now db).2.1 snap.id).map
      IssueIteration.status = some .FAILED ∧
    (findById (runCodeIteration parse env snap now db).2.1 snap.id).map
      IssueIteration.is_active = some false ∧
    Event.completedCall r.id .FAILED "Code generation failed" ∈
      (runCodeIteration parse env snap now db).2.2 ∧
    ∀ n, Event.prCreated n ∉ (runCodeIteration parse env snap now db).2.2 := by
  have hplan : analyzeIssueRequirements parse env.llm (mkContext (incRow now r)) = none := by
    unfold analyzeIssueRequirements
    exact extract_none hparse
  have hexecFst : (executeCodeAgent parse env (mkContext (incRow now r))).1 = none :=
    exec_none_of_noplan hplan
  have hexec : executeCodeAgent parse env (mkContext (incRow now r)) =
      (none, (executeCodeAgent parse env (mkContext (incRow now r))).2) := by
    rw [← hexecFst]
  have hincFst : (incrementIteration db snap.id now).1 = some (incRow now r) := by
    rw [incrementIteration, dbMutate_fst, hfind]
    rfl
  have hb' : ¬ ((incRow now r).max_iterations ≤ (incRow now r).current_iteration) := by
    rw [incRow_max, incRow_cur]
    omega
  have hout : runCodeIteration parse env snap now db =
      (false,
       (completeIteration (incrementIteration db snap.id now).2
         (incRow now r).id .FAILED now).2,
       .codeIterStarted snap.id ::
         (executeCodeAgent parse env (mkContext (incRow now r))).2 ++
           [.completedCall (incRow now r).id .FAILED "Code generation failed"]) := by
    unfold runCodeIteration
    rw [hincFst]
    dsimp only
    rw [if_neg hb', hexec]
  have hrid : r.id = snap.id := by
    have := List.find?_some hfind
    simpa using this
  refine ⟨hplan, ?_, ?_, ?_, ?_, ?_⟩
  · rw [hout]
  · rw [hout]
    show (findById (completeIteration (incrementIteration db snap.id now).2
      (incRow now r).id .FAILED now).2 snap.id).map IssueIteration.status = some .FAILED
    rw [findById_complete_inc hfind]
    rfl
  · rw [hout]
    show (findById (completeIteration (incrementIteration db snap.id now).2
      (incRow now r).id .FAILED now).2 snap.id).map IssueIteration.is_active = some false
    rw [findById_complete_inc hfind]
    rfl
  · rw [hout]
    have : (incRow now r).id = r.id := incRow_id now r
    rw [this]
    simp
  · intro n
    rw [hout]
    intro hmem
    rcases List.mem_cons.mp hmem with h | h
    · exact Event.noConfusion h
    · rcases List.mem_append.mp h with h | h
      · exact exec_none_no_prCreated hexecFst n h
      · simp at h

/-- A code-step environment whose assistant response contains no JSON
object at all. -/
def c8Env : CodeEnv := { llm := fun _ => "no json object here" }

/-- A parser refusing every input (any parser satisfies the C8 hypothesis
on a brace-free response). -/
def noParse : String → Option Plan := fun _ => none

/-- Witness for C8 at a concrete record, brace-free response and parser. -/
theorem c8_no_parseable_plan_fails_witness :
    findById demoDb demoRec.id = some demoRec ∧
    demoRec.current_iteration + 1 < demoRec.max_iterations ∧
    analyzeIssueRequirements noParse c8Env.llm (mkContext (incRow 3 demoRec)) = none ∧
    (runCodeIteration noParse c8Env demoRec 3 demoDb).1 = false := by
  have h := @c8_no_parseable_plan_fails noParse c8Env demoRec 3 demoDb demoRec
    (by decide) (by decide) (fun _ _ _ _ => rfl)
  exact ⟨by decide, by decide, h.1, h.2.1⟩

end CodeAgent

namespace CodeAgent

/-- C9 counterexample: the claim keys the score discount to the CI
conclusion of the *triggering event*.  Here the record's stored
`last_ci_conclusion` is `"success"` (from the previous event) while the
triggering event's conclusion is `"failure"` and the raw score is 80 > 50;
the review the engine returns still carries score 80, not 80 × 0.8 — the
discount is keyed to the stale stored conclusion, not the event's. -/
theorem c9_counterexample :
    Event.reviewProduced (demoRaw 80 "request_changes" "sum") ∈
      (handleCiCompletion demoParse demoCenv
        { raw_review := some (demoRaw 80 "request_changes" "sum") }
        "o/r" 7 "completed" "failure" 3 staleDb).2.2 ∧
    (demoRaw 80 "request_changes" "sum").overall_assessment.score = 80 ∧
    ¬ (80 : ℚ) = 80 * (0.8 : ℚ) := by
  refine ⟨by decide, by decide, by norm_num⟩

/-- C9 as amended: the CI-awareness transformation behaves exactly as the
claim describes — ×0.8 discount and summary annotation when the conclusion
is not success and the score exceeds 50, identity otherwise, the
recommendation never touched — but it is keyed to the CI conclusion in the
review context, which `handle_ci_completion` populates from the record
snapshot loaded *before* the triggering event's conclusion is stored. -/
theorem c9_penalty_keyed_to_context_conclusion (cc : Option String) (raw : ReviewResult) :
    (cc ≠ some "success" → 50 < raw.overall_assessment.score →
      executeReviewerAgent cc (some raw) = some
        { raw with overall_assessment :=
          { raw.overall_assessment with
              score := raw.overall_assessment.score * 0.8
              summary := raw.overall_assessment.summary ++
                " CI failed with status: " ++ pyStr cc } }) ∧
    (cc = some "success" ∨ raw.overall_assessment.score ≤ 50 →
      executeReviewerAgent cc (some raw) = some raw) ∧
    (∀ (parse : String → Option Plan) (cenv : CodeEnv) (renv : ReviewEnv)
        (repo : String) (pr : Nat) (ciStatus ciConclusion : String) (now : Nat)
        (db : DB) (t : IssueIteration),
      getIterationByPr db repo pr = some t → t.status = .WAITING_CI →
      renv.fetch_ok = true → renv.raw_review = some raw →
      Event.reviewProduced (applyCiPenalty t.last_ci_conclusion raw) ∈
        (handleCiCompletion parse cenv renv repo pr ciStatus ciConclusion now db).2.2) := by
  refine ⟨?_, ?_, ?_⟩
  · intro hcc hsc
    unfold executeReviewerAgent applyCiPenalty
    simp only [Option.map_some']
    rw [if_pos hcc, if_pos hsc]
  · intro h
    unfold executeReviewerAgent applyCiPenalty
    simp only [Option.map_some']
    rcases h with h | h
    · rw [if_neg (by simp [h])]
    · by_cases hcc : cc ≠ some "success"
      · rw [if_pos hcc, if_neg (not_lt.mpr h)]
      · rw [if_neg hcc]
  · intro parse cenv renv repo pr ciStatus ciConclusion now db t hlook hwait hfetch hraw
    unfold handleCiCompletion
    rw [hlook]
    dsimp only
    rw [if_neg (by simp [hwait]), if_neg (by simp [hwait])]
    unfold runReviewIteration
    rw [if_neg (by simp [hfetch]), hraw]
    rw [show executeReviewerAgent t.last_ci_conclusion (some raw) =
      some (applyCiPenalty t.last_ci_conclusion raw) from rfl]
    dsimp only
    exact List.mem_cons_self _ _

/-- Witness for the amended C9 at a concrete non-success conclusion and a
raw score above the threshold. -/
theorem c9_penalty_keyed_witness :
    (some "x" ≠ some "success") ∧ ((50 : ℚ) < 80) ∧
    executeReviewerAgent (some "x") (some (demoRaw 80 "request_changes" "sum")) =
      some { demoRaw 80 "request_changes" "sum" with overall_assessment :=
        { (demoRaw 80 "request_changes" "sum").overall_assessment with
            score := (demoRaw 80 "request_changes" "sum").overall_assessment.score * 0.8
            summary := (demoRaw 80 "request_changes" "sum").overall_assessment.summary ++
              " CI failed with status: " ++ pyStr (some "x") } } := by
  refine ⟨by simp, by norm_num, ?_⟩
  exact (c9_penalty_keyed_to_context_conclusion (some "x")
    (demoRaw 80 "request_changes" "sum")).1 (by simp) (by norm_num [demoRaw])

/-- C10: `increment_iteration` at the budget boundary forces `FAILED` and
stamps `completed_at` but leaves `is_active` untouched (for the mutated row
and pointwise for every row), so `get_active_iteration` still finds the
FAILED record for its key until `complete_iteration` is invoked; among the
per-record store operations the orchestrator uses, only
`complete_iteration` clears `is_active` — `update_iteration` (as invoked,
without an `is_active` kwarg) and `increment_iteration` never do. -/
theorem c10_increment_never_deactivates {db : DB} {i now : Nat} {t : IssueIteration}
    (ht : findById db i = some t)
    (hforce : t.max_iterations ≤ t.current_iteration + 1) :
    (incrementIteration db i now).1 = some (incRow now t) ∧
    (incRow now t).status = .FAILED ∧
    (incRow now t).completed_at = some now ∧
    (incRow now t).is_active = t.is_active ∧
    (∀ j s, findById db j = some s →
      (findById (incrementIteration db i now).2 j).map IssueIteration.is_active =
        some s.is_active) ∧
    (∀ repo issue, getActiveIteration (incrementIteration db i now).2 repo issue =
      (getActiveIteration db repo issue).map (rowAt i (incRow now))) ∧
    (∀ st r', (completeIteration db i st now).1 = some r' → r'.is_active = false) ∧
    (∀ u r', (updateIteration db i u now).1 = some r' → r'.is_active = t.is_active) := by
  refine ⟨?_, ?_, ?_, incRow_active now t, ?_, ?_, ?_, ?_⟩
  · rw [incrementIteration, dbMutate_fst, ht]
    rfl
  · simp [incRow, hforce]
  · simp [incRow, hforce]
  · intro j s hs
    rw [incrementIteration, findById_dbMutate (incRow_id now), hs]
    dsimp only [Option.map_some']
    unfold rowAt
    split
    · rw [incRow_active]
    · rfl
  · intro repo issue
    exact getActive_dbMutate (rowTame_incRow now).repo_eq (rowTame_incRow now).issue_eq
      (incRow_active now) i db repo issue
  · intro st r' h
    rw [completeIteration, dbMutate_fst] at h
    obtain ⟨x, hx, rfl⟩ := Option.map_eq_some'.mp h
    rfl
  · intro u r' h
    rw [updateIteration, dbMutate_fst, ht] at h
    rw [← Option.some_inj.mp h]
    rfl

/-- A record one iteration below its budget, so that the next increment
forces the failure. -/
def lastRec : IssueIteration := { demoRec with current_iteration := 4 }

/-- Store holding `lastRec`. -/
def lastDb : DB := { recs := [lastRec], next_id := 2 }

/-- Witness for C10 at a record whose next increment reaches the budget. -/
theorem c10_increment_never_deactivates_witness :
    findById lastDb 1 = some lastRec ∧
    lastRec.max_iterations ≤ lastRec.current_iteration + 1 ∧
    (incrementIteration lastDb 1 3).1 = some (incRow 3 lastRec) ∧
    (incRow 3 lastRec).status = .FAILED ∧
    (incRow 3 lastRec).is_active = lastRec.is_active := by
  have h := @c10_increment_never_deactivates lastDb 1 3 lastRec (by decide) (by decide)
  exact ⟨by decide, by decide, h.1, h.2.1, h.2.2.2.1⟩

end CodeAgent
